import Mathlib

/-!
# bomctl: the GitLab push pipeline (`internal/pkg/client/gitlab/push.go`)

A shallow embedding of `Client.PreparePush`, `Client.AddFile` and `Client.Push`.

* Go strings are Lean `String`s; `strings.Split` with a one-character separator and the two
  regular expressions of `AddFile` are written out as structural recursions on characters.
* A Go `error` is represented by its message; `fmt.Errorf("%w", err)` keeps the message and
  `fmt.Errorf("ctx: %w", err)` puts `ctx: ` in front of it.
* A run-time panic (index out of range, nil dereference) is the outcome `Outcome.panic`.
* The remote GitLab API is explicit state passing over a world type `σ`; `Push` also reports
  the remote calls it issued.
* `opts.Logger.Info` only logs and is left out.
-/

namespace Gitlab

/-! ## Strings -/

/-- Characters of `strings.Split(s, sep)` for a one-character separator: all the pieces between
occurrences of `sep`, always at least one piece. -/
def splitChars (sep : Char) : List Char → List (List Char)
  | [] => [[]]
  | c :: cs =>
    if c = sep then [] :: splitChars sep cs
    else
      match splitChars sep cs with
      | [] => [[c]]
      | seg :: segs => (c :: seg) :: segs

/-- Go `strings.Split(s, sep)` where `sep` is a single character. -/
def Split (s : String) (sep : Char) : List String :=
  (splitChars sep s.data).map String.mk

/-- Removes the literal `lit` from the front of `cs`, if `cs` starts with it. -/
def dropLiteral : List Char → List Char → Option (List Char)
  | [], cs => some cs
  | _ :: _, [] => none
  | p :: ps, c :: cs => if p = c then dropLiteral ps cs else none

/-- The regular-expression class `\w` (Go's regexp: ASCII letters, digits and underscore). -/
def isWordChar (c : Char) : Bool :=
  c.isAlphanum || c == '_'

/-- The regular-expression class `[\w-]`. -/
def isUuidChar (c : Char) : Bool :=
  isWordChar c || c == '-'

/-- Match of `urn:uuid:([\w-]+)` starting at the first character of `cs`: the capture group, which
is the longest non-empty run of `[\w-]` after the literal. -/
def matchUuidAt (cs : List Char) : Option (List Char) :=
  match dropLiteral "urn:uuid:".data cs with
  | none => none
  | some rest =>
    match rest.takeWhile isUuidChar with
    | [] => none
    | t :: ts => some (t :: ts)

/-- Leftmost match of `urn:uuid:([\w-]+)` in `cs`: the capture group. -/
def findUuid : List Char → Option (List Char)
  | [] => none
  | c :: cs =>
    match matchUuidAt (c :: cs) with
    | some tok => some tok
    | none => findUuid cs

/-- The call `uuidRegex.FindStringSubmatch(id)` of `AddFile` (lines 83-84): the empty slice when
there is no match, otherwise the whole match followed by the capture group. -/
def uuidRegexFindStringSubmatch (id : String) : List String :=
  match findUuid id.data with
  | none => []
  | some tok => ["urn:uuid:" ++ String.mk tok, String.mk tok]

/-- Whether a character, if there is one, is a word character. -/
def isWordAt : Option Char → Bool
  | none => false
  | some c => isWordChar c

/-- The regular-expression assertion `\b` between two neighbouring positions. -/
def wordBoundary (before after : Option Char) : Bool :=
  isWordAt before != isWordAt after

/-- Whether `\bxml\b` matches starting at the first character of `cs`, where `before` is the
character in front of `cs`. -/
def matchXmlAt (before : Option Char) (cs : List Char) : Bool :=
  match dropLiteral "xml".data cs with
  | none => false
  | some rest => wordBoundary before cs.head? && wordBoundary (some 'l') rest.head?

/-- Whether `\bxml\b` matches somewhere in `cs`, where `before` is the character in front. -/
def findXml (before : Option Char) : List Char → Bool
  | [] => false
  | c :: cs => matchXmlAt before (c :: cs) || findXml (some c) cs

/-- The call `xmlFormatRegex.FindStringSubmatch(string(opts.Format))` of `AddFile` (lines 87-88):
the empty slice when there is no match, otherwise the matched text. -/
def xmlFormatRegexFindStringSubmatch (format : String) : List String :=
  if findXml none format.data then ["xml"] else []

/-! ## Data model -/

/-- Outcome of one call of a client method. -/
inductive Outcome where
  /-- The method returned `nil`. -/
  | success
  /-- The method returned a non-nil error with this message. -/
  | failure (msg : String)
  /-- The method did not return: a run-time panic. -/
  | panic
  deriving DecidableEq, Repr

/-- A queued artifact (`SbomFile`): generated file name and serialized contents. -/
structure SbomFile where
  Name : String
  Contents : String
  deriving DecidableEq, Repr

/-- The parts of the parsed destination (`client.Parse`) that `push.go` reads. -/
structure URL where
  Hostname : String
  Port : String
  Path : String
  Query : String
  deriving DecidableEq, Repr

/-- What a remote call hands back: a transport error (`err != nil`), or a value together with the
status code of the response. -/
inductive Reply (α : Type) where
  | transportError (msg : String)
  | response (value : α) (StatusCode : Int)
  deriving DecidableEq, Repr

/-- The resolved remote project; `Push` reads its `ID`. -/
structure Project where
  ID : Int
  deriving DecidableEq, Repr

/-- Arguments of one `PublishPackageFile` call (lines 143-150): project id, package name, package
version, file name, the content behind the reader, and the options pointer (`nil` is `none`). -/
structure PublishCall where
  ProjectID : Int
  PackageName : String
  PackageVersion : String
  FileName : String
  Content : String
  Options : Option Unit
  deriving DecidableEq, Repr

/-- The project-lookup capability: `GetProject(path, nil)` against the remote world. -/
structure ProjectProvider (σ : Type) where
  GetProject : String → σ → Reply Project × σ

/-- The package-publish capability. -/
structure GenericPackagePublisher (σ : Type) where
  PublishPackageFile : PublishCall → σ → Reply Unit × σ

/-- The value `gitlab.NewClient` returns: `PreparePush` reads its two services. -/
structure GitLabClient (σ : Type) where
  Projects : ProjectProvider σ
  GenericPackages : GenericPackagePublisher σ

/-- The push session (`Client`): credential, the two capability handles (`none` is a nil
interface) and the push queue. -/
structure Client (σ : Type) where
  GitLabToken : String
  ProjectProvider : Option (ProjectProvider σ)
  GenericPackagePublisher : Option (GenericPackagePublisher σ)
  PushQueue : List SbomFile

/-- Collaborators of `push.go` that live outside it: the URL parser `client.Parse` (`none` is a
nil result), `os.Getenv`, `gitlab.NewClient(token, gitlab.WithBaseURL(baseURL))` and
`outpututil.WriteStream(sbom, format, options, writer)`, which either fails or leaves the
rendered text in the writer. -/
structure Externals (σ Doc : Type) where
  Parse : String → Option URL
  Getenv : String → String
  NewClient : String → String → Except String (GitLabClient σ)
  WriteStream : Doc → String → Except String String

/-- The push options `AddFile` reads: the format token, and what
`db.BackendFromContext(opts.Context())` returns, the backend being given by its
`GetDocumentByIDOrAlias` method. -/
structure PushOptions (Doc : Type) where
  Format : String
  Backend : Except String (String → Except String Doc)

/-- Modelled from the spec: the sentinel error `errInvalidGitLabURL` is declared outside
`push.go`; the spec calls it the "invalid destination URL" error. -/
def errInvalidGitLabURL : String := "invalid destination URL"

/-- Modelled from the spec: `validateHTTPStatusCode` is declared outside `push.go`. Per the spec
(4.4) it accepts exactly the 2xx codes, and a rejection is an error carrying the code and a
generic description. `none` is a nil error. -/
def validateHTTPStatusCode (statusCode : Int) : Option String :=
  if 200 ≤ statusCode ∧ statusCode < 300 then none
  else some ("failed web request, HTTP status code: " ++ toString statusCode)

/-! ## `PreparePush` (lines 43-68) -/

/-- The API base endpoint built on lines 48-54. -/
def baseURL (url : URL) : String :=
  let host := if url.Port ≠ "" then url.Hostname ++ ":" ++ url.Port else url.Hostname
  "https://" ++ host ++ "/api/v4"

/-- `Client.PreparePush`. -/
def PreparePush {σ Doc : Type} (ext : Externals σ Doc) (client : Client σ) (pushURL : String) :
    Outcome × Client σ :=
  let gitLabToken := ext.Getenv "BOMCTL_GITLAB_TOKEN"
  match ext.Parse pushURL with
  | none => (Outcome.panic, client)
  | some url =>
    match ext.NewClient gitLabToken (baseURL url) with
    | Except.error err => (Outcome.failure err, client)
    | Except.ok gitLabClient =>
      (Outcome.success,
        { GitLabToken := gitLabToken
          ProjectProvider := some gitLabClient.Projects
          GenericPackagePublisher := some gitLabClient.GenericPackages
          PushQueue := [] })

/-! ## `AddFile` (lines 70-107) -/

/-- The file name computed on lines 83-94: `none` when `uuidMatch[1]` is out of range. -/
def sbomFilename (id format : String) : Option String :=
  match (uuidRegexFindStringSubmatch id).get? 1 with
  | none => none
  | some base =>
    if (xmlFormatRegexFindStringSubmatch format).length = 0 then some (base ++ ".json")
    else some (base ++ ".xml")

/-- `Client.AddFile`. -/
def AddFile {σ Doc : Type} (ext : Externals σ Doc) (client : Client σ) (_pushURL id : String)
    (opts : PushOptions Doc) : Outcome × Client σ :=
  match opts.Backend with
  | Except.error err => (Outcome.failure err, client)
  | Except.ok backend =>
    match backend id with
    | Except.error err => (Outcome.failure err, client)
    | Except.ok sbom =>
      match sbomFilename id opts.Format with
      | none => (Outcome.panic, client)
      | some name =>
        match ext.WriteStream sbom opts.Format with
        | Except.error err =>
          (Outcome.failure ("failed to serialize SBOM " ++ id ++ ": " ++ err), client)
        | Except.ok contents =>
          (Outcome.success,
            { client with PushQueue := client.PushQueue ++ [{ Name := name, Contents := contents }] })

/-! ## `Push` (lines 109-161) -/

/-- One round of the loop on lines 129-138; `none` when `nameValuePair[1]` is out of range. -/
def parseParameter (acc : String × String) (parameter : String) : Option (String × String) :=
  let nameValuePair := Split parameter '='
  match nameValuePair.get? 0 with
  | none => none
  | some key =>
    if key = "package_name" then
      match nameValuePair.get? 1 with
      | none => none
      | some value => some (value, acc.2)
    else if key = "package_version" then
      match nameValuePair.get? 1 with
      | none => none
      | some value => some (acc.1, value)
    else some acc

/-- The loop on lines 129-138 over the remaining parameters. -/
def parameterLoop : List String → String × String → Option (String × String)
  | [], acc => some acc
  | parameter :: rest, acc =>
    match parseParameter acc parameter with
    | none => none
    | some acc1 => parameterLoop rest acc1

/-- Lines 124-138: the pair (package name, package version) read from the query; `none` when the
loop panics. -/
def parseParameters (query : String) : Option (String × String) :=
  parameterLoop (Split query '&') ("", "")

/-- The publish call issued for one queued artifact (lines 143-150). -/
def publishCall (projectID : Int) (packageName packageVersion : String) (sbomFile : SbomFile) :
    PublishCall :=
  { ProjectID := projectID
    PackageName := packageName
    PackageVersion := packageVersion
    FileName := sbomFile.Name
    Content := sbomFile.Contents
    Options := none }

/-- The loop on lines 140-158 over the remaining queue, from world `w`: the outcome, the world
afterwards and the publish calls issued, in order. -/
def publishLoop {σ : Type} (publisher : Option (GenericPackagePublisher σ)) (projectID : Int)
    (packageName packageVersion : String) : List SbomFile → σ → Outcome × σ × List PublishCall
  | [], w => (Outcome.success, w, [])
  | sbomFile :: rest, w =>
    match publisher with
    | none => (Outcome.panic, w, [])
    | some p =>
      let call := publishCall projectID packageName packageVersion sbomFile
      match p.PublishPackageFile call w with
      | (Reply.transportError err, w1) => (Outcome.failure ("failed to push sbom: " ++ err), w1, [call])
      | (Reply.response _ statusCode, w1) =>
        match validateHTTPStatusCode statusCode with
        | some err => (Outcome.failure err, w1, [call])
        | none =>
          let r := publishLoop publisher projectID packageName packageVersion rest w1
          (r.1, r.2.1, call :: r.2.2)

/-- What one call of `Push` did: its outcome, the session and the remote world afterwards, and
the remote calls it issued (project lookups by path, publish calls by arguments). -/
structure PushRun (σ : Type) where
  outcome : Outcome
  client : Client σ
  world : σ
  lookups : List String
  publishes : List PublishCall

/-- `Client.Push`. -/
def Push {σ Doc : Type} (ext : Externals σ Doc) (client : Client σ) (pushURL : String) (w : σ) :
    PushRun σ :=
  match ext.Parse pushURL with
  | none => ⟨Outcome.failure (errInvalidGitLabURL ++ ": " ++ pushURL), client, w, [], []⟩
  | some url =>
    match client.ProjectProvider with
    | none => ⟨Outcome.panic, client, w, [], []⟩
    | some provider =>
      match provider.GetProject url.Path w with
      | (Reply.transportError err, w1) =>
        ⟨Outcome.failure ("failed to get project info: " ++ err), client, w1, [url.Path], []⟩
      | (Reply.response project statusCode, w1) =>
        match validateHTTPStatusCode statusCode with
        | some err => ⟨Outcome.failure err, client, w1, [url.Path], []⟩
        | none =>
          match parseParameters url.Query with
          | none => ⟨Outcome.panic, client, w1, [url.Path], []⟩
          | some (packageName, packageVersion) =>
            let r := publishLoop client.GenericPackagePublisher project.ID packageName
              packageVersion client.PushQueue w1
            ⟨r.1, client, r.2.1, [url.Path], r.2.2⟩

/-! ## Vocabulary of the statements -/

/-- The format token contains `xml` as a whole word: an occurrence of the three characters with no
word character right before it and none right after it. -/
def ContainsXmlWord (format : String) : Prop :=
  ∃ pre post : List Char, format.data = pre ++ "xml".data ++ post ∧
    isWordAt pre.getLast? = false ∧ isWordAt post.head? = false

/-- The character in front of the text that follows `pre`, when `before` is in front of `pre`. -/
def lastOr (before : Option Char) (pre : List Char) : Option Char :=
  match pre.getLast? with
  | some c => some c
  | none => before

/-- Whether a remote call succeeded: no transport error and a 2xx status code. -/
def Reply.succeeded {α : Type} : Reply α → Bool
  | Reply.transportError _ => false
  | Reply.response _ statusCode => decide (200 ≤ statusCode ∧ statusCode < 300)

/-- The replies the publish capability gives when exactly these calls are issued one after the
other, starting in world `w`. -/
def answers {σ : Type} (publisher : GenericPackagePublisher σ) :
    List PublishCall → σ → List (Reply Unit)
  | [], _ => []
  | call :: calls, w =>
    (publisher.PublishPackageFile call w).1 ::
      answers publisher calls (publisher.PublishPackageFile call w).2

/-- The query is in flat `key=value` form: each of its `&`-separated segments has a `=`. -/
def FlatKeyValue (query : String) : Prop :=
  ∀ segment ∈ Split query '&', '=' ∈ segment.data

/-- The package name `Push` reads from the query (empty when the parameter loop panics). -/
def packageNameOf (query : String) : String :=
  ((parseParameters query).getD ("", "")).1

/-- The package version `Push` reads from the query (empty when the parameter loop panics). -/
def packageVersionOf (query : String) : String :=
  ((parseParameters query).getD ("", "")).2

/-- The text `key=value` of one query segment. -/
def segmentText (kv : String × String) : String :=
  kv.1 ++ "=" ++ kv.2

/-- The query made of the given key/value segments, joined with `&`. -/
def joinSegments : List (String × String) → String
  | [] => ""
  | [kv] => segmentText kv
  | kv :: kv2 :: rest => segmentText kv ++ "&" ++ joinSegments (kv2 :: rest)

/-- A plain segment: neither its key nor its value contains `&` or `=`. -/
def PlainSegment (kv : String × String) : Prop :=
  ('&' ∉ kv.1.data ∧ '=' ∉ kv.1.data) ∧ ('&' ∉ kv.2.data ∧ '=' ∉ kv.2.data)

instance (kv : String × String) : Decidable (PlainSegment kv) := by
  unfold PlainSegment
  infer_instance

/-- Scanning the segments left to right, the value of the last one whose key is `key`, or
`start` when there is none. -/
def valueOf (key : String) (start : String) (segs : List (String × String)) : String :=
  segs.foldl (fun acc kv => if kv.1 = key then kv.2 else acc) start

/-- The artifact `AddFile` derives for a document: its name is the file name computed from the
identifier and the format, its contents are the rendering of the stored document. -/
def ArtifactOf {σ Doc : Type} (ext : Externals σ Doc) (id : String) (opts : PushOptions Doc)
    (artifact : SbomFile) : Prop :=
  sbomFilename id opts.Format = some artifact.Name ∧
    ∃ backend sbom, opts.Backend = Except.ok backend ∧ backend id = Except.ok sbom ∧
      ext.WriteStream sbom opts.Format = Except.ok artifact.Contents

/-- A caller that adds documents one after the other, stopping at the first `AddFile` call that
does not succeed. -/
def addFiles {σ Doc : Type} (ext : Externals σ Doc) (pushURL : String) :
    Client σ → List (String × PushOptions Doc) → Outcome × Client σ
  | client, [] => (Outcome.success, client)
  | client, (id, opts) :: rest =>
    match AddFile ext client pushURL id opts with
    | (Outcome.success, client1) => addFiles ext pushURL client1 rest
    | (Outcome.failure msg, client1) => (Outcome.failure msg, client1)
    | (Outcome.panic, client1) => (Outcome.panic, client1)

/-- The pattern of line 83 occurs at the start of `cs`: the text `urn:uuid:` immediately followed
by at least one character of the class `[\w-]`. -/
def UuidOccursAt (cs : List Char) : Prop :=
  ∃ c rest, cs = "urn:uuid:".data ++ c :: rest ∧ isUuidChar c = true

/-- The pattern of line 83 occurs somewhere in the identifier. -/
def ContainsUuid (id : String) : Prop :=
  ∃ pre rest, id.data = pre ++ rest ∧ UuidOccursAt rest

/-! ## Concrete sessions for the examples -/

/-- A publisher whose world is the number of publish calls answered so far: the n-th call gets
the n-th reply of the script, and status 201 once the script is used up. -/
def scriptedPublisher (script : List (Reply Unit)) : GenericPackagePublisher Nat :=
  ⟨fun _ n => (script.getD n (Reply.response () 201), n + 1)⟩

/-- A project provider that answers every lookup with the same reply. -/
def fixedProvider (reply : Reply Project) : ProjectProvider Nat :=
  ⟨fun _ n => (reply, n)⟩

/-- Collaborators for the examples: the parser answers `url`, the credential is empty, client
construction answers `built`, and a document renders to its own text. -/
def sampleExternals (url : Option URL) (built : Except String (GitLabClient Nat)) :
    Externals Nat String :=
  { Parse := fun _ => url
    Getenv := fun _ => ""
    NewClient := fun _ _ => built
    WriteStream := fun doc _ => Except.ok doc }

/-- A remote client whose project lookup answers project 42 with status 200. -/
def sampleGitLabClient : GitLabClient Nat :=
  ⟨fixedProvider (Reply.response ⟨42⟩ 200), scriptedPublisher []⟩

/-- A prepared session with the given queue, lookup reply and publish script. -/
def sampleClient (queue : List SbomFile) (lookup : Reply Project) (script : List (Reply Unit)) :
    Client Nat :=
  { GitLabToken := ""
    ProjectProvider := some (fixedProvider lookup)
    GenericPackagePublisher := some (scriptedPublisher script)
    PushQueue := queue }

/-- Collaborators for the examples whose serializer rejects every document. -/
def brokenWriterExternals : Externals Nat String :=
  { sampleExternals none (Except.ok sampleGitLabClient) with
    WriteStream := fun _ _ => Except.error "unsupported format" }

/-- Options for the examples: the store holds the document `doc` under every identifier. -/
def sampleOptions (format doc : String) : PushOptions String :=
  ⟨format, Except.ok (fun _ => Except.ok doc)⟩

/-! ## Lemmas on the string primitives -/

theorem dropLiteral_append (lit rest : List Char) : dropLiteral lit (lit ++ rest) = some rest := by
  induction lit with
  | nil => cases rest <;> rfl
  | cons p ps ih => simp [dropLiteral, ih]

theorem dropLiteral_eq_some {lit cs rest : List Char} (h : dropLiteral lit cs = some rest) :
    cs = lit ++ rest := by
  induction lit generalizing cs with
  | nil =>
    cases cs <;> simp [dropLiteral] at h <;> simp [h]
  | cons p ps ih =>
    cases cs with
    | nil => simp [dropLiteral] at h
    | cons c cs =>
      by_cases hpc : p = c
      · simp [dropLiteral, hpc] at h
        simp [hpc, ih h]
      · simp [dropLiteral, hpc] at h

theorem matchXmlAt_iff (before : Option Char) (cs : List Char) :
    matchXmlAt before cs = true ↔
      ∃ post, cs = "xml".data ++ post ∧ isWordAt before = false ∧ isWordAt post.head? = false := by
  have hx : isWordChar 'x' = true := by decide
  have hl : isWordChar 'l' = true := by decide
  unfold matchXmlAt
  constructor
  · intro h
    cases hd : dropLiteral "xml".data cs with
    | none => rw [hd] at h; cases h
    | some rest =>
      have hcs := dropLiteral_eq_some hd
      rw [hd] at h
      subst hcs
      have hh : ("xml".data ++ rest).head? = some 'x' := rfl
      rw [hh] at h
      simp only [wordBoundary, isWordAt, hx, hl, Bool.and_eq_true, bne_iff_ne, ne_eq] at h
      refine ⟨rest, rfl, ?_, ?_⟩
      · cases hb : isWordAt before with
        | false => rfl
        | true => exact absurd hb h.1
      · cases hr : isWordAt rest.head? with
        | false => rfl
        | true => exact absurd hr.symm h.2
  · rintro ⟨post, rfl, hb, ha⟩
    rw [dropLiteral_append]
    have hh : ("xml".data ++ post).head? = some 'x' := rfl
    rw [hh]
    simp only [wordBoundary, hb, ha]
    simp [isWordAt, hx, hl]

theorem lastOr_cons (before : Option Char) (c : Char) (pre : List Char) :
    lastOr before (c :: pre) = lastOr (some c) pre := by
  cases pre with
  | nil => simp [lastOr]
  | cons d ds =>
    unfold lastOr
    rw [List.getLast?_cons_cons]
    cases hg : (d :: ds).getLast? with
    | none => simp at hg
    | some e => rfl

theorem findXml_iff (before : Option Char) (cs : List Char) :
    findXml before cs = true ↔
      ∃ pre post, cs = pre ++ "xml".data ++ post ∧ isWordAt (lastOr before pre) = false ∧
        isWordAt post.head? = false := by
  induction cs generalizing before with
  | nil =>
    simp only [findXml]
    constructor
    · intro h; cases h
    · rintro ⟨pre, post, h, -, -⟩
      have := congrArg List.length h
      simp at this
      omega
  | cons c cs ih =>
    simp only [findXml, Bool.or_eq_true, matchXmlAt_iff, ih]
    constructor
    · rintro (⟨post, h, hb, ha⟩ | ⟨pre, post, h, hb, ha⟩)
      · exact ⟨[], post, by simpa using h, by simpa [lastOr] using hb, ha⟩
      · exact ⟨c :: pre, post, by simp [h], by rw [lastOr_cons]; exact hb, ha⟩
    · rintro ⟨pre, post, h, hb, ha⟩
      cases pre with
      | nil => exact Or.inl ⟨post, by simpa using h, by simpa [lastOr] using hb, ha⟩
      | cons d pre =>
        simp only [List.cons_append, List.cons.injEq] at h
        obtain ⟨rfl, h⟩ := h
        exact Or.inr ⟨pre, post, h, by rw [← lastOr_cons before]; exact hb, ha⟩

theorem findXml_none_iff (format : String) :
    findXml none format.data = true ↔ ContainsXmlWord format := by
  rw [findXml_iff]
  unfold ContainsXmlWord
  constructor
  · rintro ⟨pre, post, h, hb, ha⟩
    refine ⟨pre, post, h, ?_, ha⟩
    unfold lastOr at hb
    cases hl : pre.getLast? with
    | none => rfl
    | some c => simpa [hl] using hb
  · rintro ⟨pre, post, h, hb, ha⟩
    refine ⟨pre, post, h, ?_, ha⟩
    unfold lastOr
    cases hl : pre.getLast? with
    | none => rfl
    | some c => simpa [hl] using hb

/-! ## Lemmas on identifier extraction -/

theorem matchUuidAt_literal (tok : List Char) (hne : tok ≠ [])
    (hall : ∀ c ∈ tok, isUuidChar c = true) :
    matchUuidAt ("urn:uuid:".data ++ tok) = some tok := by
  unfold matchUuidAt
  rw [dropLiteral_append]
  have htw : tok.takeWhile isUuidChar = tok := List.takeWhile_eq_self_iff.mpr hall
  simp only [htw]
  cases tok with
  | nil => exact absurd rfl hne
  | cons t ts => rfl

theorem findUuid_literal (tok : List Char) (hne : tok ≠ [])
    (hall : ∀ c ∈ tok, isUuidChar c = true) :
    findUuid ("urn:uuid:".data ++ tok) = some tok := by
  have h := matchUuidAt_literal tok hne hall
  have hc : "urn:uuid:".data ++ tok = 'u' :: ("rn:uuid:".data ++ tok) := rfl
  rw [hc] at h ⊢
  simp only [findUuid, h]

theorem isUuidChar_of_alnum_or_hyphen (c : Char) (h : c.isAlphanum = true ∨ c = '-') :
    isUuidChar c = true := by
  rcases h with h | h
  · simp [isUuidChar, isWordChar, h]
  · subst h; decide

theorem sbomFilename_urn (tok format : String) (hne : tok ≠ "")
    (hall : ∀ c ∈ tok.data, c.isAlphanum = true ∨ c = '-') :
    sbomFilename ("urn:uuid:" ++ tok) format =
      some (tok ++ if findXml none format.data = true then ".xml" else ".json") := by
  have hne2 : tok.data ≠ [] := by
    intro h
    apply hne
    exact String.ext h
  have hf : findUuid ("urn:uuid:" ++ tok).data = some tok.data := by
    rw [String.data_append]
    exact findUuid_literal tok.data hne2 (fun c hc => isUuidChar_of_alnum_or_hyphen c (hall c hc))
  unfold sbomFilename uuidRegexFindStringSubmatch xmlFormatRegexFindStringSubmatch
  rw [hf]
  by_cases hx : findXml none format.data = true
  · simp [hx]
  · simp [hx]

/-! ## Lemmas on parameter parsing -/

theorem splitChars_ne_nil (sep : Char) (cs : List Char) : splitChars sep cs ≠ [] := by
  cases cs with
  | nil => simp [splitChars]
  | cons c cs =>
    unfold splitChars
    by_cases h : c = sep
    · simp [h]
    · simp only [h, if_false]
      cases splitChars sep cs <;> simp

theorem splitChars_of_not_mem (sep : Char) (a : List Char) (h : sep ∉ a) :
    splitChars sep a = [a] := by
  induction a with
  | nil => rfl
  | cons c cs ih =>
    simp only [List.mem_cons, not_or] at h
    have hc : ¬ c = sep := fun e => h.1 e.symm
    simp [splitChars, hc, ih h.2]

theorem splitChars_append_sep (sep : Char) (a b : List Char) (h : sep ∉ a) :
    splitChars sep (a ++ sep :: b) = a :: splitChars sep b := by
  induction a with
  | nil => simp [splitChars]
  | cons c cs ih =>
    simp only [List.mem_cons, not_or] at h
    have hc : ¬ c = sep := fun e => h.1 e.symm
    simp [splitChars, hc, ih h.2]

theorem splitChars_two_of_mem (sep : Char) (cs : List Char) (h : sep ∈ cs) :
    ∃ a b rest, splitChars sep cs = a :: b :: rest := by
  induction cs with
  | nil => simp at h
  | cons c cs ih =>
    by_cases hc : c = sep
    · obtain ⟨b, rest, hb⟩ := List.exists_cons_of_ne_nil (splitChars_ne_nil sep cs)
      exact ⟨[], b, rest, by simp [splitChars, hc, hb]⟩
    · have hmem : sep ∈ cs := by
        rcases List.mem_cons.mp h with h1 | h1
        · exact absurd h1.symm hc
        · exact h1
      obtain ⟨a, b, rest, hab⟩ := ih hmem
      exact ⟨c :: a, b, rest, by simp [splitChars, hc, hab]⟩

theorem parseParameter_of_eq_mem (acc : String × String) (parameter : String)
    (h : '=' ∈ parameter.data) : ∃ acc1, parseParameter acc parameter = some acc1 := by
  obtain ⟨a, b, rest, hab⟩ := splitChars_two_of_mem '=' parameter.data h
  unfold parseParameter Split
  simp only [hab, List.map_cons, List.get?_cons_zero, List.get?_cons_succ]
  by_cases h1 : String.mk a = "package_name"
  · simp [h1]
  · by_cases h2 : String.mk a = "package_version"
    · simp [h1, h2]
    · simp [h1, h2]

theorem parameterLoop_of_eq_mem (parameters : List String) (acc : String × String)
    (h : ∀ parameter ∈ parameters, '=' ∈ parameter.data) :
    ∃ r, parameterLoop parameters acc = some r := by
  induction parameters generalizing acc with
  | nil => exact ⟨acc, rfl⟩
  | cons p ps ih =>
    obtain ⟨acc1, h1⟩ := parseParameter_of_eq_mem acc p (h p (List.mem_cons_self _ _))
    obtain ⟨r, hr⟩ := ih acc1 (fun q hq => h q (List.mem_cons_of_mem _ hq))
    exact ⟨r, by simp [parameterLoop, h1, hr]⟩

theorem parseParameters_of_flat (query : String) (h : FlatKeyValue query) :
    ∃ name version, parseParameters query = some (name, version) := by
  obtain ⟨r, hr⟩ := parameterLoop_of_eq_mem (Split query '&') ("", "") h
  exact ⟨r.1, r.2, hr⟩

theorem segmentText_data (kv : String × String) :
    (segmentText kv).data = kv.1.data ++ '=' :: kv.2.data := by
  simp [segmentText, String.data_append]

theorem Split_segmentText (kv : String × String) (h : PlainSegment kv) :
    Split (segmentText kv) '=' = [kv.1, kv.2] := by
  unfold Split
  rw [segmentText_data, splitChars_append_sep '=' _ _ h.1.2, splitChars_of_not_mem '=' _ h.2.2]
  rfl

theorem parseParameter_segmentText (acc : String × String) (kv : String × String)
    (h : PlainSegment kv) :
    parseParameter acc (segmentText kv) =
      some (if kv.1 = "package_name" then kv.2 else acc.1,
        if kv.1 = "package_version" then kv.2 else acc.2) := by
  unfold parseParameter
  rw [Split_segmentText kv h]
  by_cases h1 : kv.1 = "package_name"
  · have h2 : ¬ kv.1 = "package_version" := by rw [h1]; decide
    simp [h1]
  · by_cases h2 : kv.1 = "package_version"
    · simp [h2]
    · simp [h1, h2]

theorem parameterLoop_segments (segs : List (String × String)) (acc : String × String)
    (h : ∀ kv ∈ segs, PlainSegment kv) :
    parameterLoop (segs.map segmentText) acc =
      some (valueOf "package_name" acc.1 segs, valueOf "package_version" acc.2 segs) := by
  induction segs generalizing acc with
  | nil => rfl
  | cons kv rest ih =>
    have hkv := h kv (List.mem_cons_self _ _)
    have hrest := fun q hq => h q (List.mem_cons_of_mem kv hq)
    simp only [List.map_cons, parameterLoop, parseParameter_segmentText acc kv hkv, ih _ hrest]
    simp [valueOf]

theorem amp_not_mem_segmentText (kv : String × String) (h : PlainSegment kv) :
    '&' ∉ (segmentText kv).data := by
  rw [segmentText_data]
  simp only [List.mem_append, List.mem_cons, not_or]
  exact ⟨h.1.1, by decide, h.2.1⟩

theorem splitChars_joinSegments (segs : List (String × String)) (hne : segs ≠ [])
    (h : ∀ kv ∈ segs, PlainSegment kv) :
    splitChars '&' (joinSegments segs).data = segs.map (fun kv => (segmentText kv).data) := by
  induction segs with
  | nil => exact absurd rfl hne
  | cons kv rest ih =>
    have hkv := amp_not_mem_segmentText kv (h kv (List.mem_cons_self _ _))
    cases rest with
    | nil => simp [joinSegments, splitChars_of_not_mem '&' _ hkv]
    | cons kv2 rest2 =>
      have hrest := fun q hq => h q (List.mem_cons_of_mem kv hq)
      have ih2 := ih (by simp) hrest
      have hd : (joinSegments (kv :: kv2 :: rest2)).data =
          (segmentText kv).data ++ '&' :: (joinSegments (kv2 :: rest2)).data := by
        simp [joinSegments, String.data_append]
      rw [hd, splitChars_append_sep '&' _ _ hkv, ih2]
      rfl

theorem parseParameters_joinSegments (segs : List (String × String))
    (h : ∀ kv ∈ segs, PlainSegment kv) :
    parseParameters (joinSegments segs) =
      some (valueOf "package_name" "" segs, valueOf "package_version" "" segs) := by
  cases segs with
  | nil => decide
  | cons kv rest =>
    have hs : Split (joinSegments (kv :: rest)) '&' = (kv :: rest).map segmentText := by
      unfold Split
      rw [splitChars_joinSegments (kv :: rest) (by simp) h, List.map_map]
      rfl
    unfold parseParameters
    rw [hs]
    exact parameterLoop_segments (kv :: rest) ("", "") h

theorem valueOf_of_absent (key start : String) (segs : List (String × String))
    (h : ∀ kv ∈ segs, kv.1 ≠ key) : valueOf key start segs = start := by
  induction segs generalizing start with
  | nil => rfl
  | cons kv rest ih =>
    have hkv := h kv (List.mem_cons_self _ _)
    have hrest := fun q hq => h q (List.mem_cons_of_mem kv hq)
    have := ih start hrest
    simpa [valueOf, hkv] using this

theorem valueOf_of_last (key start v : String) (pre post : List (String × String))
    (h : ∀ kv ∈ post, kv.1 ≠ key) : valueOf key start (pre ++ (key, v) :: post) = v := by
  have := valueOf_of_absent key v post h
  simpa [valueOf, List.foldl_append] using this

theorem valueOf_perm (key start : String) (segs segs2 : List (String × String))
    (hperm : segs2.Perm segs) (hnodup : (segs.map Prod.fst).Nodup) :
    valueOf key start segs2 = valueOf key start segs := by
  have hnodup2 : (segs2.map Prod.fst).Nodup := (hperm.map Prod.fst).nodup_iff.mpr hnodup
  have key_split : ∀ (l : List (String × String)), (l.map Prod.fst).Nodup →
      ∀ kv ∈ l, kv.1 = key → valueOf key start l = kv.2 := by
    intro l hl kv hmem hk
    obtain ⟨pre, post, rfl⟩ := List.append_of_mem hmem
    have hpost : ∀ q ∈ post, q.1 ≠ key := by
      intro q hq hqk
      simp only [List.map_append, List.map_cons] at hl
      have h2 := (List.nodup_append.mp hl).2.1
      have h3 := (List.nodup_cons.mp h2).1
      apply h3
      rw [hk, ← hqk]
      exact List.mem_map_of_mem Prod.fst hq
    have hkv : kv = (key, kv.2) := by rw [← hk]
    rw [hkv]
    exact valueOf_of_last key start kv.2 pre post hpost
  by_cases hex : ∃ kv ∈ segs, kv.1 = key
  · obtain ⟨kv, hmem, hk⟩ := hex
    rw [key_split segs hnodup kv hmem hk, key_split segs2 hnodup2 kv (hperm.mem_iff.mpr hmem) hk]
  · have habs : ∀ kv ∈ segs, kv.1 ≠ key := fun kv hmem hk => hex ⟨kv, hmem, hk⟩
    have habs2 : ∀ kv ∈ segs2, kv.1 ≠ key := fun kv hmem => habs kv (hperm.mem_iff.mp hmem)
    rw [valueOf_of_absent key start segs habs, valueOf_of_absent key start segs2 habs2]

/-! ## Lemmas on the publish loop -/

theorem validate_eq_none_iff (statusCode : Int) :
    validateHTTPStatusCode statusCode = none ↔ (200 ≤ statusCode ∧ statusCode < 300) := by
  unfold validateHTTPStatusCode
  by_cases h : 200 ≤ statusCode ∧ statusCode < 300
  · simp [h]
  · rw [if_neg h]
    exact ⟨fun h2 => Option.noConfusion h2, fun h2 => absurd h2 h⟩

theorem succeeded_response_iff {α : Type} (value : α) (statusCode : Int) :
    (Reply.response value statusCode).succeeded = true ↔
      validateHTTPStatusCode statusCode = none := by
  rw [validate_eq_none_iff]
  simp [Reply.succeeded]

theorem publishLoop_all_succeed {σ : Type} (p : GenericPackagePublisher σ) (projectID : Int)
    (packageName packageVersion : String) (queue : List SbomFile) (w : σ)
    (hall : ∀ r ∈ answers p (queue.map (publishCall projectID packageName packageVersion)) w,
      r.succeeded = true) :
    (publishLoop (some p) projectID packageName packageVersion queue w).1 = Outcome.success ∧
    (publishLoop (some p) projectID packageName packageVersion queue w).2.2 =
      queue.map (publishCall projectID packageName packageVersion) := by
  induction queue generalizing w with
  | nil => exact ⟨rfl, rfl⟩
  | cons f fs ih =>
    simp only [List.map_cons, answers, List.mem_cons, forall_eq_or_imp] at hall
    obtain ⟨h0, hrest⟩ := hall
    cases hp : p.PublishPackageFile (publishCall projectID packageName packageVersion f) w with
    | mk r w1 =>
      rw [hp] at h0 hrest
      cases r with
      | transportError msg => simp [Reply.succeeded] at h0
      | response value statusCode =>
        have hv := (succeeded_response_iff value statusCode).mp h0
        have := ih w1 hrest
        simp only [publishLoop, hp, hv, List.map_cons]
        exact ⟨this.1, by rw [this.2]⟩

theorem publishLoop_fail_at {σ : Type} (p : GenericPackagePublisher σ) (projectID : Int)
    (packageName packageVersion : String) (queue : List SbomFile) (w : σ) (j : Nat)
    (hbefore : ∀ r ∈ (answers p (queue.map (publishCall projectID packageName packageVersion))
      w).take j, r.succeeded = true)
    (r : Reply Unit)
    (hat : (answers p (queue.map (publishCall projectID packageName packageVersion)) w).get? j
      = some r)
    (hfail : r.succeeded = false) :
    (∀ msg, r = Reply.transportError msg →
      (publishLoop (some p) projectID packageName packageVersion queue w).1 =
        Outcome.failure ("failed to push sbom: " ++ msg)) ∧
    (∀ value statusCode, r = Reply.response value statusCode →
      ∃ err, validateHTTPStatusCode statusCode = some err ∧
        (publishLoop (some p) projectID packageName packageVersion queue w).1 =
          Outcome.failure err) ∧
    (publishLoop (some p) projectID packageName packageVersion queue w).2.2 =
      (queue.take (j + 1)).map (publishCall projectID packageName packageVersion) := by
  induction queue generalizing w j with
  | nil => simp [answers] at hat
  | cons f fs ih =>
    cases hp : p.PublishPackageFile (publishCall projectID packageName packageVersion f) w with
    | mk r0 w1 =>
      cases j with
      | zero =>
        simp only [List.map_cons, answers, hp, List.get?_cons_zero, Option.some.injEq] at hat
        subst hat
        cases r0 with
        | transportError msg =>
          simp only [publishLoop, hp]
          refine ⟨?_, ?_, by simp⟩
          · intro msg2 h2
            cases h2
            rfl
          · intro value statusCode h2
            cases h2
        | response value statusCode =>
          cases hv : validateHTTPStatusCode statusCode with
          | none =>
            have := (succeeded_response_iff value statusCode).mpr hv
            rw [this] at hfail
            cases hfail
          | some err =>
            simp only [publishLoop, hp, hv]
            refine ⟨?_, ?_, by simp⟩
            · intro msg2 h2
              cases h2
            · intro value2 statusCode2 h2
              cases h2
              exact ⟨err, hv, rfl⟩
      | succ j =>
        simp only [List.map_cons, answers, hp, List.get?_cons_succ] at hat
        simp only [List.map_cons, answers, hp, List.take_succ_cons, List.mem_cons,
          forall_eq_or_imp] at hbefore
        obtain ⟨h0, hrest⟩ := hbefore
        cases r0 with
        | transportError msg => simp [Reply.succeeded] at h0
        | response value statusCode =>
          have hv := (succeeded_response_iff value statusCode).mp h0
          have := ih w1 j hrest hat
          simp only [publishLoop, hp, hv, List.take_succ_cons, List.map_cons]
          exact ⟨this.1, this.2.1, by rw [this.2.2]⟩

theorem failure_of_cases {o : Outcome} (r : Reply Unit)
    (h1 : ∀ msg, r = Reply.transportError msg → o = Outcome.failure ("failed to push sbom: " ++ msg))
    (h2 : ∀ value statusCode, r = Reply.response value statusCode →
      ∃ err, validateHTTPStatusCode statusCode = some err ∧ o = Outcome.failure err) :
    ∃ msg, o = Outcome.failure msg := by
  cases r with
  | transportError msg => exact ⟨_, h1 msg rfl⟩
  | response value statusCode =>
    obtain ⟨err, -, he⟩ := h2 value statusCode rfl
    exact ⟨err, he⟩

/-! ## Lemmas on `Push` -/

theorem parseParameters_eq_of_flat (query : String) (h : FlatKeyValue query) :
    parseParameters query = some (packageNameOf query, packageVersionOf query) := by
  obtain ⟨name, version, hp⟩ := parseParameters_of_flat query h
  simp [packageNameOf, packageVersionOf, hp]

theorem Push_of_resolved {σ Doc : Type} (ext : Externals σ Doc) (client : Client σ)
    (pushURL : String) (w w1 : σ) (url : URL) (provider : ProjectProvider σ)
    (project : Project) (statusCode : Int) (name version : String)
    (hparse : ext.Parse pushURL = some url)
    (hprov : client.ProjectProvider = some provider)
    (hget : provider.GetProject url.Path w = (Reply.response project statusCode, w1))
    (hok : 200 ≤ statusCode ∧ statusCode < 300)
    (hparams : parseParameters url.Query = some (name, version)) :
    Push ext client pushURL w =
      ⟨(publishLoop client.GenericPackagePublisher project.ID name version client.PushQueue w1).1,
        client,
        (publishLoop client.GenericPackagePublisher project.ID name version client.PushQueue
          w1).2.1,
        [url.Path],
        (publishLoop client.GenericPackagePublisher project.ID name version client.PushQueue
          w1).2.2⟩ := by
  have hv := (validate_eq_none_iff statusCode).mpr hok
  simp only [Push, hparse, hprov, hget, hv, hparams]

theorem Push_all_succeed {σ Doc : Type} (ext : Externals σ Doc) (client : Client σ)
    (pushURL : String) (w w1 : σ) (url : URL) (provider : ProjectProvider σ)
    (publisher : GenericPackagePublisher σ) (project : Project) (statusCode : Int)
    (name version : String)
    (hparse : ext.Parse pushURL = some url)
    (hprov : client.ProjectProvider = some provider)
    (hpub : client.GenericPackagePublisher = some publisher)
    (hget : provider.GetProject url.Path w = (Reply.response project statusCode, w1))
    (hok : 200 ≤ statusCode ∧ statusCode < 300)
    (hparams : parseParameters url.Query = some (name, version))
    (hall : ∀ r ∈ answers publisher
      (client.PushQueue.map (publishCall project.ID name version)) w1, r.succeeded = true) :
    (Push ext client pushURL w).outcome = Outcome.success ∧
    (Push ext client pushURL w).publishes =
      client.PushQueue.map (publishCall project.ID name version) ∧
    (Push ext client pushURL w).client = client := by
  rw [Push_of_resolved ext client pushURL w w1 url provider project statusCode name version
    hparse hprov hget hok hparams, hpub]
  have h := publishLoop_all_succeed publisher project.ID name version client.PushQueue w1 hall
  exact ⟨h.1, h.2, rfl⟩

theorem Push_empty_queue_publishes {σ Doc : Type} (ext : Externals σ Doc) (client : Client σ)
    (pushURL : String) (w : σ) (hq : client.PushQueue = []) :
    (Push ext client pushURL w).publishes = [] := by
  cases hparse : ext.Parse pushURL with
  | none => simp only [Push, hparse]
  | some url =>
    cases hprov : client.ProjectProvider with
    | none => simp only [Push, hparse, hprov]
    | some provider =>
      cases hg : provider.GetProject url.Path w with
      | mk r w1 =>
        cases r with
        | transportError msg => simp only [Push, hparse, hprov, hg]
        | response project statusCode =>
          cases hv : validateHTTPStatusCode statusCode with
          | some err => simp only [Push, hparse, hprov, hg, hv]
          | none =>
            cases hp : parseParameters url.Query with
            | none => simp only [Push, hparse, hprov, hg, hv, hp]
            | some nv => simp only [Push, hparse, hprov, hg, hv, hp, hq, publishLoop]

theorem Push_client {σ Doc : Type} (ext : Externals σ Doc) (client : Client σ)
    (pushURL : String) (w : σ) : (Push ext client pushURL w).client = client := by
  cases hparse : ext.Parse pushURL with
  | none => simp only [Push, hparse]
  | some url =>
    cases hprov : client.ProjectProvider with
    | none => simp only [Push, hparse, hprov]
    | some provider =>
      cases hg : provider.GetProject url.Path w with
      | mk r w1 =>
        cases r with
        | transportError msg => simp only [Push, hparse, hprov, hg]
        | response project statusCode =>
          cases hv : validateHTTPStatusCode statusCode with
          | some err => simp only [Push, hparse, hprov, hg, hv]
          | none =>
            cases hp : parseParameters url.Query with
            | none => simp only [Push, hparse, hprov, hg, hv, hp]
            | some nv => simp only [Push, hparse, hprov, hg, hv, hp]

theorem Push_success_params {σ Doc : Type} (ext : Externals σ Doc) (client : Client σ)
    (pushURL : String) (w : σ) (url : URL) (hparse : ext.Parse pushURL = some url)
    (hsuccess : (Push ext client pushURL w).outcome = Outcome.success) :
    ∃ name version, parseParameters url.Query = some (name, version) := by
  cases hprov : client.ProjectProvider with
  | none => simp [Push, hparse, hprov] at hsuccess
  | some provider =>
    cases hg : provider.GetProject url.Path w with
    | mk r w1 =>
      cases r with
      | transportError msg => simp [Push, hparse, hprov, hg] at hsuccess
      | response project statusCode =>
        cases hv : validateHTTPStatusCode statusCode with
        | some err => simp [Push, hparse, hprov, hg, hv] at hsuccess
        | none =>
          cases hp : parseParameters url.Query with
          | none => simp [Push, hparse, hprov, hg, hv, hp] at hsuccess
          | some nv => exact ⟨nv.1, nv.2, rfl⟩

/-! ## Lemmas on `AddFile` -/

theorem AddFile_success {σ Doc : Type} (ext : Externals σ Doc) (client client1 : Client σ)
    (pushURL id : String) (opts : PushOptions Doc)
    (h : AddFile ext client pushURL id opts = (Outcome.success, client1)) :
    ∃ artifact, ArtifactOf ext id opts artifact ∧
      client1 = { client with PushQueue := client.PushQueue ++ [artifact] } := by
  unfold AddFile at h
  cases hb : opts.Backend with
  | error err => simp [hb] at h
  | ok backend =>
    cases hd : backend id with
    | error err => simp [hb, hd] at h
    | ok sbom =>
      cases hn : sbomFilename id opts.Format with
      | none => simp [hb, hd, hn] at h
      | some name =>
        cases hw : ext.WriteStream sbom opts.Format with
        | error err => simp [hb, hd, hn, hw] at h
        | ok contents =>
          simp only [hb, hd, hn, hw, Prod.mk.injEq, true_and] at h
          exact ⟨⟨name, contents⟩, ⟨hn, backend, sbom, hb, hd, hw⟩, h.symm⟩

theorem AddFile_failure_client {σ Doc : Type} (ext : Externals σ Doc)
    (client client1 : Client σ) (pushURL id msg : String) (opts : PushOptions Doc)
    (h : AddFile ext client pushURL id opts = (Outcome.failure msg, client1)) :
    client1 = client := by
  unfold AddFile at h
  cases hb : opts.Backend with
  | error err =>
    simp only [hb, Prod.mk.injEq] at h
    exact h.2.symm
  | ok backend =>
    cases hd : backend id with
    | error err =>
      simp only [hb, hd, Prod.mk.injEq] at h
      exact h.2.symm
    | ok sbom =>
      cases hn : sbomFilename id opts.Format with
      | none => simp [hb, hd, hn] at h
      | some name =>
        cases hw : ext.WriteStream sbom opts.Format with
        | error err =>
          simp only [hb, hd, hn, hw, Prod.mk.injEq] at h
          exact h.2.symm
        | ok contents => simp [hb, hd, hn, hw] at h

theorem addFiles_success {σ Doc : Type} (ext : Externals σ Doc) (pushURL : String)
    (calls : List (String × PushOptions Doc)) (client clientN : Client σ)
    (h : addFiles ext pushURL client calls = (Outcome.success, clientN)) :
    ∃ artifacts, List.Forall₂ (fun call artifact => ArtifactOf ext call.1 call.2 artifact)
        calls artifacts ∧
      clientN.PushQueue = client.PushQueue ++ artifacts := by
  induction calls generalizing client with
  | nil =>
    simp only [addFiles, Prod.mk.injEq, true_and] at h
    subst h
    exact ⟨[], List.Forall₂.nil, by simp⟩
  | cons call rest ih =>
    obtain ⟨id, opts⟩ := call
    cases ha : AddFile ext client pushURL id opts with
    | mk o client1 =>
      cases o with
      | success =>
        simp only [addFiles, ha] at h
        obtain ⟨artifact, hart, hc⟩ := AddFile_success ext client client1 pushURL id opts ha
        obtain ⟨artifacts, hall, hq⟩ := ih client1 h
        refine ⟨artifact :: artifacts, List.Forall₂.cons hart hall, ?_⟩
        rw [hq, hc]
        simp
      | failure msg => simp [addFiles, ha] at h
      | panic => simp [addFiles, ha] at h

/-! ## Lemmas on the extension choice -/

theorem sbomFilename_some {id format name : String} (h : sbomFilename id format = some name) :
    ∃ base, name = base ++ if findXml none format.data = true then ".xml" else ".json" := by
  unfold sbomFilename at h
  cases hg : (uuidRegexFindStringSubmatch id).get? 1 with
  | none =>
    rw [hg] at h
    cases h
  | some base =>
    rw [hg] at h
    refine ⟨base, ?_⟩
    by_cases hx : findXml none format.data = true
    · simp [xmlFormatRegexFindStringSubmatch, hx] at h
      simp [hx, h]
    · simp [xmlFormatRegexFindStringSubmatch, hx] at h
      simp [hx, h]

theorem xml_not_suffix_of_json (base : String) : ¬ ".xml".data <:+ (base ++ ".json").data := by
  rintro ⟨t, ht⟩
  have := congrArg List.reverse ht
  simp [String.data_append] at this

theorem json_not_suffix_of_xml (base : String) : ¬ ".json".data <:+ (base ++ ".xml").data := by
  rintro ⟨t, ht⟩
  have := congrArg List.reverse ht
  simp [String.data_append] at this

theorem suffix_append_data (base extension : String) :
    extension.data <:+ (base ++ extension).data :=
  ⟨base.data, by simp [String.data_append]⟩

/-! ## Lemmas on the unguarded value slot -/

theorem parseParameter_eq_none_iff (acc : String × String) (parameter : String) :
    parseParameter acc parameter = none ↔
      (parameter = "package_name" ∨ parameter = "package_version") := by
  by_cases hmem : '=' ∈ parameter.data
  · obtain ⟨acc1, h1⟩ := parseParameter_of_eq_mem acc parameter hmem
    rw [h1]
    constructor
    · intro h; cases h
    · rintro (h | h)
      · rw [h] at hmem; exact absurd hmem (by decide)
      · rw [h] at hmem; exact absurd hmem (by decide)
  · have hs : Split parameter '=' = [parameter] := by
      unfold Split
      rw [splitChars_of_not_mem '=' _ hmem]
      rfl
    unfold parseParameter
    rw [hs]
    by_cases h1 : parameter = "package_name"
    · simp [h1]
    · by_cases h2 : parameter = "package_version"
      · simp [h2]
      · simp [h1, h2]

theorem parameterLoop_eq_none_iff (parameters : List String) (acc : String × String) :
    parameterLoop parameters acc = none ↔
      ∃ parameter ∈ parameters, parameter = "package_name" ∨ parameter = "package_version" := by
  induction parameters generalizing acc with
  | nil => simp [parameterLoop]
  | cons p ps ih =>
    cases hp : parseParameter acc p with
    | none =>
      have := (parseParameter_eq_none_iff acc p).mp hp
      simp only [parameterLoop, hp, true_iff]
      exact ⟨p, List.mem_cons_self _ _, this⟩
    | some acc1 =>
      have hne : ¬ (p = "package_name" ∨ p = "package_version") := fun h => by
        have := (parseParameter_eq_none_iff acc p).mpr h
        rw [hp] at this
        cases this
      simp only [parameterLoop, hp, ih acc1, List.mem_cons, exists_eq_or_imp, hne, false_or]

theorem parseParameters_eq_none_iff (query : String) :
    parseParameters query = none ↔
      ∃ parameter ∈ Split query '&',
        parameter = "package_name" ∨ parameter = "package_version" :=
  parameterLoop_eq_none_iff (Split query '&') ("", "")

/-! ## Lemmas on the indexed identifier match -/

theorem matchUuidAt_eq_none_iff (cs : List Char) :
    matchUuidAt cs = none ↔ ¬ UuidOccursAt cs := by
  unfold matchUuidAt UuidOccursAt
  cases hd : dropLiteral "urn:uuid:".data cs with
  | none =>
    simp only [true_iff]
    rintro ⟨c, rest, hcs, -⟩
    rw [hcs, dropLiteral_append] at hd
    cases hd
  | some rest0 =>
    have hcs := dropLiteral_eq_some hd
    cases rest0 with
    | nil =>
      simp only [List.takeWhile_nil, true_iff]
      rintro ⟨c, rest, hcs2, -⟩
      rw [hcs] at hcs2
      have := congrArg List.length hcs2
      simp at this
    | cons c r =>
      by_cases hc : isUuidChar c = true
      · simp only [List.takeWhile_cons_of_pos hc]
        constructor
        · intro h; cases h
        · intro h; exact absurd ⟨c, r, hcs, hc⟩ h
      · simp only [List.takeWhile_cons_of_neg hc, true_iff]
        rintro ⟨c2, rest, hcs2, hc2⟩
        rw [hcs] at hcs2
        have h3 := List.append_cancel_left hcs2
        simp only [List.cons.injEq] at h3
        rw [h3.1] at hc
        exact hc hc2

theorem matchUuidAt_of_run (tok rest : List Char) (hne : tok ≠ [])
    (hall : ∀ c ∈ tok, isUuidChar c = true)
    (hstop : ∀ c, rest.head? = some c → isUuidChar c = false) :
    matchUuidAt ("urn:uuid:".data ++ tok ++ rest) = some tok := by
  unfold matchUuidAt
  rw [List.append_assoc, dropLiteral_append]
  have hrest : rest.takeWhile isUuidChar = [] := by
    cases rest with
    | nil => rfl
    | cons c r =>
      have := hstop c rfl
      simp [List.takeWhile, this]
  have htw : (tok ++ rest).takeWhile isUuidChar = tok := by
    rw [List.takeWhile_append_of_pos hall, hrest, List.append_nil]
  simp only [htw]
  cases tok with
  | nil => exact absurd rfl hne
  | cons t ts => rfl

theorem findUuid_eq_none_iff (cs : List Char) :
    findUuid cs = none ↔ ∀ pre rest, cs = pre ++ rest → ¬ UuidOccursAt rest := by
  induction cs with
  | nil =>
    simp only [findUuid, true_iff]
    intro pre rest h
    have hrest : rest = [] := (List.append_eq_nil.mp h.symm).2
    rw [hrest, ← matchUuidAt_eq_none_iff]
    rfl
  | cons c cs ih =>
    cases hm : matchUuidAt (c :: cs) with
    | some tok =>
      simp only [findUuid, hm]
      constructor
      · intro h; cases h
      · intro h
        have := (matchUuidAt_eq_none_iff (c :: cs)).mpr (h [] (c :: cs) rfl)
        rw [hm] at this
        cases this
    | none =>
      simp only [findUuid, hm, ih]
      constructor
      · intro h pre rest hsplit
        cases pre with
        | nil =>
          simp only [List.nil_append] at hsplit
          rw [← hsplit]
          exact (matchUuidAt_eq_none_iff (c :: cs)).mp hm
        | cons d pre2 =>
          simp only [List.cons_append, List.cons.injEq] at hsplit
          exact h pre2 rest hsplit.2
      · intro h pre rest hsplit
        exact h (c :: pre) rest (by rw [hsplit]; rfl)

theorem findUuid_leftmost (pre rest tok : List Char) (hm : matchUuidAt rest = some tok)
    (hleft : ∀ pre2 rest2, pre ++ rest = pre2 ++ rest2 → pre2.length < pre.length →
      ¬ UuidOccursAt rest2) :
    findUuid (pre ++ rest) = some tok := by
  induction pre with
  | nil =>
    cases rest with
    | nil =>
      have : matchUuidAt [] = none := rfl
      rw [this] at hm
      cases hm
    | cons c cs => simp only [List.nil_append, findUuid, hm]
  | cons d pre2 ih =>
    have hnone : matchUuidAt (d :: (pre2 ++ rest)) = none :=
      (matchUuidAt_eq_none_iff _).mpr (hleft [] (d :: pre2 ++ rest) rfl (by simp))
    have hrec := ih (fun pre3 rest3 hsplit hlen =>
      hleft (d :: pre3) rest3 (by rw [List.cons_append, hsplit]; rfl) (by simpa using hlen))
    show findUuid (d :: (pre2 ++ rest)) = some tok
    rw [findUuid, hnone]
    exact hrec

theorem uuidMatch_index (id : String) :
    (uuidRegexFindStringSubmatch id).get? 1 = (findUuid id.data).map String.mk := by
  unfold uuidRegexFindStringSubmatch
  cases findUuid id.data <;> rfl

theorem sbomFilename_eq_none_iff (id format : String) :
    sbomFilename id format = none ↔ ¬ ContainsUuid id := by
  have hiff : findUuid id.data = none ↔ ¬ ContainsUuid id := by
    rw [findUuid_eq_none_iff]
    unfold ContainsUuid
    constructor
    · rintro h ⟨pre, rest, hsplit, hocc⟩
      exact h pre rest hsplit hocc
    · intro h pre rest hsplit hocc
      exact h ⟨pre, rest, hsplit, hocc⟩
  rw [← hiff]
  unfold sbomFilename
  rw [uuidMatch_index]
  cases findUuid id.data with
  | none => simp
  | some tok =>
    simp only [Option.map_some']
    by_cases hx : (xmlFormatRegexFindStringSubmatch format).length = 0
    · simp [hx]
    · simp [hx]

/-! ## Lemmas on keys and values of a segment -/

theorem parseParameter_of_split (acc : String × String) (parameter key value : String)
    (more : List String) (h : Split parameter '=' = key :: value :: more) :
    parseParameter acc parameter =
      some (if key = "package_name" then (value, acc.2)
        else if key = "package_version" then (acc.1, value) else acc) := by
  unfold parseParameter
  rw [h]
  by_cases h1 : key = "package_name"
  · simp [h1]
  · by_cases h2 : key = "package_version"
    · simp [h2]
    · simp [h1, h2]

theorem parseParameter_of_unknown (acc : String × String) (parameter key : String)
    (h : (Split parameter '=').get? 0 = some key)
    (h1 : key ≠ "package_name") (h2 : key ≠ "package_version") :
    parseParameter acc parameter = some acc := by
  unfold parseParameter
  dsimp only
  rw [h]
  simp [h1, h2]

theorem Split_key_value_tail (key value tail : String) (hk : '=' ∉ key.data)
    (hv : '=' ∉ value.data) :
    ∃ more, Split (key ++ "=" ++ value ++ "=" ++ tail) '=' = key :: value :: more := by
  have hd : (key ++ "=" ++ value ++ "=" ++ tail).data =
      key.data ++ '=' :: (value.data ++ '=' :: tail.data) := by
    simp [String.data_append]
  unfold Split
  rw [hd, splitChars_append_sep '=' _ _ hk, splitChars_append_sep '=' _ _ hv]
  exact ⟨(splitChars '=' tail.data).map String.mk, rfl⟩

theorem Split_key_value (key value : String) (hk : '=' ∉ key.data) (hv : '=' ∉ value.data) :
    Split (key ++ "=" ++ value) '=' = [key, value] := by
  have hd : (key ++ "=" ++ value).data = key.data ++ '=' :: value.data := by
    simp [String.data_append]
  unfold Split
  rw [hd, splitChars_append_sep '=' _ _ hk, splitChars_of_not_mem '=' _ hv]
  rfl

/-! ## Claims -/

/-- C1, as stated, fails: for the identifier `urn:uuid:abc-123` and the format token
`cyclonedx_xml`, which contains `xml` as a substring, `AddFile` succeeds and queues an artifact
named `abc-123.json`, not `abc-123.xml`. -/
theorem C1_substring_counterexample :
    "xml".data <:+: "cyclonedx_xml".data ∧
    (AddFile (sampleExternals none (Except.ok sampleGitLabClient))
        (sampleClient [] (Reply.response ⟨42⟩ 200) []) "" "urn:uuid:abc-123"
        (sampleOptions "cyclonedx_xml" "X")).1 = Outcome.success ∧
    (AddFile (sampleExternals none (Except.ok sampleGitLabClient))
        (sampleClient [] (Reply.response ⟨42⟩ 200) []) "" "urn:uuid:abc-123"
        (sampleOptions "cyclonedx_xml" "X")).2.PushQueue = [⟨"abc-123.json", "X"⟩] ∧
    (AddFile (sampleExternals none (Except.ok sampleGitLabClient))
        (sampleClient [] (Reply.response ⟨42⟩ 200) []) "" "urn:uuid:abc-123"
        (sampleOptions "cyclonedx_xml" "X")).2.PushQueue ≠ [⟨"abc-123.xml", "X"⟩] := by
  refine ⟨⟨"cyclonedx_".data, [], rfl⟩, ?_, ?_, ?_⟩ <;> decide

/-- C1 (amended): for every identifier `urn:uuid:<id>` with `<id>` a non-empty string of ASCII
letters, digits and hyphens, whose document is found and serializes, `AddFile` succeeds and
appends one artifact holding the rendered content; it is named `<id>.xml` when the format token
contains `xml` as a whole word (no letter, digit or underscore right before or after it) and
`<id>.json` otherwise. -/
theorem C1_addFile_name {σ Doc : Type} (ext : Externals σ Doc) (client : Client σ)
    (pushURL tok : String) (opts : PushOptions Doc) (backend : String → Except String Doc)
    (sbom : Doc) (contents : String)
    (hne : tok ≠ "") (hall : ∀ c ∈ tok.data, c.isAlphanum = true ∨ c = '-')
    (hback : opts.Backend = Except.ok backend)
    (hdoc : backend ("urn:uuid:" ++ tok) = Except.ok sbom)
    (hser : ext.WriteStream sbom opts.Format = Except.ok contents) :
    (ContainsXmlWord opts.Format →
      AddFile ext client pushURL ("urn:uuid:" ++ tok) opts =
        (Outcome.success,
          { client with PushQueue := client.PushQueue ++ [⟨tok ++ ".xml", contents⟩] })) ∧
    (¬ ContainsXmlWord opts.Format →
      AddFile ext client pushURL ("urn:uuid:" ++ tok) opts =
        (Outcome.success,
          { client with PushQueue := client.PushQueue ++ [⟨tok ++ ".json", contents⟩] })) := by
  have hname := sbomFilename_urn tok opts.Format hne hall
  constructor
  · intro hx
    have hx2 := (findXml_none_iff opts.Format).mpr hx
    simp only [AddFile, hback, hdoc, hname, hser, hx2, if_true]
  · intro hx
    have hx2 : ¬ findXml none opts.Format.data = true := fun h =>
      hx ((findXml_none_iff opts.Format).mp h)
    simp [AddFile, hback, hdoc, hname, hser, hx2]

/-- C1 at the round-trip scenario of the spec: identifier `urn:uuid:abc-123`, format `xml`,
content `X` queue the artifact `abc-123.xml`. -/
theorem C1_addFile_name_witness :
    AddFile (sampleExternals none (Except.ok sampleGitLabClient))
        (sampleClient [] (Reply.response ⟨42⟩ 200) []) "" ("urn:uuid:" ++ "abc-123")
        (sampleOptions "xml" "X") =
      (Outcome.success,
        { sampleClient [] (Reply.response ⟨42⟩ 200) [] with
          PushQueue := (sampleClient [] (Reply.response ⟨42⟩ 200) []).PushQueue ++
            [⟨"abc-123" ++ ".xml", "X"⟩] }) :=
  (C1_addFile_name (sampleExternals none (Except.ok sampleGitLabClient))
    (sampleClient [] (Reply.response ⟨42⟩ 200) []) "" "abc-123" (sampleOptions "xml" "X")
    (fun _ => Except.ok "X") "X" "X" (by decide) (by decide) rfl rfl rfl).1
    ⟨[], [], rfl, rfl, rfl⟩

/-- C2: when the destination parses, project resolution succeeds with a 2xx status, the query is
in flat key=value form, the first `k - 1` publish calls succeed and the `k`-th one fails (transport
error or non-2xx status), `Push` returns an error and the publish calls it issued are exactly
those for the first `k` artifacts, in queue order: `k` calls, none for artifacts `k+1..n`. -/
theorem C2_push_stops_at_first_failure {σ Doc : Type} (ext : Externals σ Doc) (client : Client σ)
    (pushURL : String) (w w1 : σ) (url : URL) (provider : ProjectProvider σ)
    (publisher : GenericPackagePublisher σ) (project : Project) (statusCode : Int) (k : Nat)
    (r : Reply Unit)
    (hparse : ext.Parse pushURL = some url)
    (hprov : client.ProjectProvider = some provider)
    (hpub : client.GenericPackagePublisher = some publisher)
    (hget : provider.GetProject url.Path w = (Reply.response project statusCode, w1))
    (hok : 200 ≤ statusCode ∧ statusCode < 300)
    (hflat : FlatKeyValue url.Query)
    (hk1 : 1 ≤ k) (hkn : k ≤ client.PushQueue.length)
    (hbefore : ∀ r0 ∈ (answers publisher (client.PushQueue.map (publishCall project.ID
      (packageNameOf url.Query) (packageVersionOf url.Query))) w1).take (k - 1),
      r0.succeeded = true)
    (hat : (answers publisher (client.PushQueue.map (publishCall project.ID
      (packageNameOf url.Query) (packageVersionOf url.Query))) w1).get? (k - 1) = some r)
    (hfail : r.succeeded = false) :
    (∃ msg, (Push ext client pushURL w).outcome = Outcome.failure msg) ∧
    (Push ext client pushURL w).publishes =
      (client.PushQueue.take k).map (publishCall project.ID (packageNameOf url.Query)
        (packageVersionOf url.Query)) ∧
    (Push ext client pushURL w).publishes.length = k := by
  have hparams := parseParameters_eq_of_flat url.Query hflat
  have hloop := publishLoop_fail_at publisher project.ID (packageNameOf url.Query)
    (packageVersionOf url.Query) client.PushQueue w1 (k - 1) hbefore r hat hfail
  have hk : k - 1 + 1 = k := by omega
  rw [hk] at hloop
  rw [Push_of_resolved ext client pushURL w w1 url provider project statusCode _ _
    hparse hprov hget hok hparams, hpub]
  refine ⟨failure_of_cases r hloop.1 hloop.2.1, hloop.2.2, ?_⟩
  show (publishLoop (some publisher) project.ID (packageNameOf url.Query)
    (packageVersionOf url.Query) client.PushQueue w1).2.2.length = k
  rw [hloop.2.2, List.length_map, List.length_take]
  omega

/-- C2 on three queued artifacts with a 500 status on the second publish call: an error, and
exactly two publish calls. -/
theorem C2_push_stops_at_first_failure_witness :
    (∃ msg, (Push
      (sampleExternals (some ⟨"gitlab.example", "", "group/project",
        "package_name=p&package_version=1.0"⟩) (Except.ok sampleGitLabClient))
      (sampleClient [⟨"a.json", "A"⟩, ⟨"b.json", "B"⟩, ⟨"c.json", "C"⟩]
        (Reply.response ⟨42⟩ 200) [Reply.response () 201, Reply.response () 500])
      "https://gitlab.example/group/project?package_name=p&package_version=1.0" 0).outcome
        = Outcome.failure msg) ∧
    (Push
      (sampleExternals (some ⟨"gitlab.example", "", "group/project",
        "package_name=p&package_version=1.0"⟩) (Except.ok sampleGitLabClient))
      (sampleClient [⟨"a.json", "A"⟩, ⟨"b.json", "B"⟩, ⟨"c.json", "C"⟩]
        (Reply.response ⟨42⟩ 200) [Reply.response () 201, Reply.response () 500])
      "https://gitlab.example/group/project?package_name=p&package_version=1.0" 0).publishes
        = [⟨42, "p", "1.0", "a.json", "A", none⟩, ⟨42, "p", "1.0", "b.json", "B", none⟩] := by
  have h := C2_push_stops_at_first_failure
    (sampleExternals (some ⟨"gitlab.example", "", "group/project",
      "package_name=p&package_version=1.0"⟩) (Except.ok sampleGitLabClient))
    (sampleClient [⟨"a.json", "A"⟩, ⟨"b.json", "B"⟩, ⟨"c.json", "C"⟩]
      (Reply.response ⟨42⟩ 200) [Reply.response () 201, Reply.response () 500])
    "https://gitlab.example/group/project?package_name=p&package_version=1.0" 0 0
    ⟨"gitlab.example", "", "group/project", "package_name=p&package_version=1.0"⟩
    (fixedProvider (Reply.response ⟨42⟩ 200))
    (scriptedPublisher [Reply.response () 201, Reply.response () 500]) ⟨42⟩ 200 2
    (Reply.response () 500) rfl rfl rfl rfl (by decide) (by unfold FlatKeyValue; decide)
    (by decide) (by decide) (by decide) (by decide) (by decide)
  exact ⟨h.1, h.2.1.trans (by decide)⟩

/-- C3 at a failing input: the destination parses, its query is the bare key `package_name`,
project resolution answers 200 and the publisher would answer 201 to every call; yet `Push`
neither returns success nor issues the publish call for the queued artifact: reading
`nameValuePair[1]` on line 134 panics. -/
theorem C3_bare_key_panics :
    (sampleExternals (some ⟨"gitlab.example", "", "group/project", "package_name"⟩)
      (Except.ok sampleGitLabClient)).Parse "https://gitlab.example/group/project?package_name"
        = some ⟨"gitlab.example", "", "group/project", "package_name"⟩ ∧
    (fixedProvider (Reply.response ⟨42⟩ 200)).GetProject "group/project" 0
        = (Reply.response ⟨42⟩ 200, 0) ∧
    (∀ call n, ((scriptedPublisher []).PublishPackageFile call n).1.succeeded = true) ∧
    (Push
      (sampleExternals (some ⟨"gitlab.example", "", "group/project", "package_name"⟩)
        (Except.ok sampleGitLabClient))
      (sampleClient [⟨"abc-123.xml", "X"⟩] (Reply.response ⟨42⟩ 200) [])
      "https://gitlab.example/group/project?package_name" 0).outcome = Outcome.panic ∧
    (Push
      (sampleExternals (some ⟨"gitlab.example", "", "group/project", "package_name"⟩)
        (Except.ok sampleGitLabClient))
      (sampleClient [⟨"abc-123.xml", "X"⟩] (Reply.response ⟨42⟩ 200) [])
      "https://gitlab.example/group/project?package_name" 0).publishes = [] := by
  refine ⟨rfl, rfl, ?_, by decide, by decide⟩
  intro call n
  simp [scriptedPublisher, Reply.succeeded]

/-- C4: when the destination parses and project resolution answers with a transport error or a
non-2xx status, `Push` returns an error, issues no publish call, and leaves the session, its
queue included, as it was. -/
theorem C4_push_resolution_failure {σ Doc : Type} (ext : Externals σ Doc) (client : Client σ)
    (pushURL : String) (w w1 : σ) (url : URL) (provider : ProjectProvider σ)
    (reply : Reply Project)
    (hparse : ext.Parse pushURL = some url)
    (hprov : client.ProjectProvider = some provider)
    (hget : provider.GetProject url.Path w = (reply, w1))
    (hfail : reply.succeeded = false) :
    (∃ msg, (Push ext client pushURL w).outcome = Outcome.failure msg) ∧
    (Push ext client pushURL w).publishes = [] ∧
    (Push ext client pushURL w).client.PushQueue = client.PushQueue ∧
    (Push ext client pushURL w).client = client := by
  cases reply with
  | transportError msg =>
    simp [Push, hparse, hprov, hget]
  | response project statusCode =>
    cases hv : validateHTTPStatusCode statusCode with
    | none =>
      have := (succeeded_response_iff project statusCode).mpr hv
      rw [this] at hfail
      cases hfail
    | some err =>
      simp [Push, hparse, hprov, hget, hv]

/-- C4 on a queue of one artifact when project resolution answers 404. -/
theorem C4_push_resolution_failure_witness :
    (∃ msg, (Push
      (sampleExternals (some ⟨"gitlab.example", "", "group/project", "package_name=p"⟩)
        (Except.ok sampleGitLabClient))
      (sampleClient [⟨"abc-123.xml", "X"⟩] (Reply.response ⟨0⟩ 404) [])
      "https://gitlab.example/group/project?package_name=p" 0).outcome = Outcome.failure msg) ∧
    (Push
      (sampleExternals (some ⟨"gitlab.example", "", "group/project", "package_name=p"⟩)
        (Except.ok sampleGitLabClient))
      (sampleClient [⟨"abc-123.xml", "X"⟩] (Reply.response ⟨0⟩ 404) [])
      "https://gitlab.example/group/project?package_name=p" 0).publishes = [] ∧
    (Push
      (sampleExternals (some ⟨"gitlab.example", "", "group/project", "package_name=p"⟩)
        (Except.ok sampleGitLabClient))
      (sampleClient [⟨"abc-123.xml", "X"⟩] (Reply.response ⟨0⟩ 404) [])
      "https://gitlab.example/group/project?package_name=p" 0).client.PushQueue
        = [⟨"abc-123.xml", "X"⟩] :=
  have h := C4_push_resolution_failure
    (sampleExternals (some ⟨"gitlab.example", "", "group/project", "package_name=p"⟩)
      (Except.ok sampleGitLabClient))
    (sampleClient [⟨"abc-123.xml", "X"⟩] (Reply.response ⟨0⟩ 404) [])
    "https://gitlab.example/group/project?package_name=p" 0 0
    ⟨"gitlab.example", "", "group/project", "package_name=p"⟩
    (fixedProvider (Reply.response ⟨0⟩ 404)) (Reply.response ⟨0⟩ 404) rfl rfl rfl (by decide)
  ⟨h.1, h.2.1, h.2.2.1⟩

/-- C5: on a query made of `&`-separated `key=value` segments (keys and values free of `&` and
`=`), parameter parsing completes and (1) a recognized key takes the value of its last occurrence,
(2) permuting segments with pairwise distinct keys does not change the parsed pair, (3) a
recognized key that does not occur yields the empty string. -/
theorem C5_parameter_parsing (segs : List (String × String))
    (hplain : ∀ kv ∈ segs, PlainSegment kv) :
    (∀ pre post v, segs = pre ++ ("package_name", v) :: post →
      (∀ kv ∈ post, kv.1 ≠ "package_name") →
      ∃ version, parseParameters (joinSegments segs) = some (v, version)) ∧
    (∀ pre post v, segs = pre ++ ("package_version", v) :: post →
      (∀ kv ∈ post, kv.1 ≠ "package_version") →
      ∃ name, parseParameters (joinSegments segs) = some (name, v)) ∧
    (∀ segs2, segs2.Perm segs → (segs.map Prod.fst).Nodup →
      parseParameters (joinSegments segs2) = parseParameters (joinSegments segs)) ∧
    ((∀ kv ∈ segs, kv.1 ≠ "package_name") →
      ∃ version, parseParameters (joinSegments segs) = some ("", version)) ∧
    ((∀ kv ∈ segs, kv.1 ≠ "package_version") →
      ∃ name, parseParameters (joinSegments segs) = some (name, "")) := by
  have hp := parseParameters_joinSegments segs hplain
  refine ⟨?_, ?_, ?_, ?_, ?_⟩
  · intro pre post v hsegs hpost
    refine ⟨valueOf "package_version" "" segs, ?_⟩
    rw [hp, hsegs, valueOf_of_last "package_name" "" v pre post hpost]
  · intro pre post v hsegs hpost
    refine ⟨valueOf "package_name" "" segs, ?_⟩
    rw [hp, hsegs, valueOf_of_last "package_version" "" v pre post hpost]
  · intro segs2 hperm hnodup
    have hplain2 : ∀ kv ∈ segs2, PlainSegment kv := fun kv hkv =>
      hplain kv (hperm.mem_iff.mp hkv)
    rw [hp, parseParameters_joinSegments segs2 hplain2,
      valueOf_perm "package_name" "" segs segs2 hperm hnodup,
      valueOf_perm "package_version" "" segs segs2 hperm hnodup]
  · intro habs
    exact ⟨valueOf "package_version" "" segs, by
      rw [hp, valueOf_of_absent "package_name" "" segs habs]⟩
  · intro habs
    exact ⟨valueOf "package_name" "" segs, by
      rw [hp, valueOf_of_absent "package_version" "" segs habs]⟩

/-- C5 on the query `package_name=a&package_name=b`: the package name is `b`, and since no
`package_version` occurs the version is empty. -/
theorem C5_parameter_parsing_witness :
    parseParameters "package_name=a&package_name=b" = some ("b", "") := by
  have h := C5_parameter_parsing [("package_name", "a"), ("package_name", "b")] (by decide)
  obtain ⟨version, hv⟩ := h.1 [("package_name", "a")] [] "b" rfl (by simp)
  obtain ⟨name, hn⟩ := h.2.2.2.2 (by decide)
  have hq : joinSegments [("package_name", "a"), ("package_name", "b")]
      = "package_name=a&package_name=b" := by decide
  rw [hq] at hv hn
  rw [hv] at hn
  simp only [Option.some.injEq, Prod.mk.injEq] at hn
  rw [hv, hn.2]

/-- C6 at a failing input: the destination parses, its query is the bare key `package_name`,
the queue is empty and project resolution answers 200; one project lookup and no publish call
are issued, yet `Push` does not return success: reading `nameValuePair[1]` on line 134 panics. -/
theorem C6_bare_key_panics :
    (sampleExternals (some ⟨"gitlab.example", "", "group/project", "package_name"⟩)
      (Except.ok sampleGitLabClient)).Parse "https://gitlab.example/group/project?package_name"
        = some ⟨"gitlab.example", "", "group/project", "package_name"⟩ ∧
    (fixedProvider (Reply.response ⟨42⟩ 200)).GetProject "group/project" 0
        = (Reply.response ⟨42⟩ 200, 0) ∧
    (sampleClient [] (Reply.response ⟨42⟩ 200) []).PushQueue = [] ∧
    (Push
      (sampleExternals (some ⟨"gitlab.example", "", "group/project", "package_name"⟩)
        (Except.ok sampleGitLabClient))
      (sampleClient [] (Reply.response ⟨42⟩ 200) [])
      "https://gitlab.example/group/project?package_name" 0).outcome = Outcome.panic ∧
    (Push
      (sampleExternals (some ⟨"gitlab.example", "", "group/project", "package_name"⟩)
        (Except.ok sampleGitLabClient))
      (sampleClient [] (Reply.response ⟨42⟩ 200) [])
      "https://gitlab.example/group/project?package_name" 0).outcome ≠ Outcome.success ∧
    (Push
      (sampleExternals (some ⟨"gitlab.example", "", "group/project", "package_name"⟩)
        (Except.ok sampleGitLabClient))
      (sampleClient [] (Reply.response ⟨42⟩ 200) [])
      "https://gitlab.example/group/project?package_name" 0).lookups = ["group/project"] ∧
    (Push
      (sampleExternals (some ⟨"gitlab.example", "", "group/project", "package_name"⟩)
        (Except.ok sampleGitLabClient))
      (sampleClient [] (Reply.response ⟨42⟩ 200) [])
      "https://gitlab.example/group/project?package_name" 0).publishes = [] := by
  refine ⟨rfl, rfl, rfl, by decide, by decide, by decide, by decide⟩

/-- C7, as stated, fails: when the only publish call ends in the transport error
`connection refused`, or in status 500, the message of the error `Push` returns does not contain
the name `abc-123.json` of the artifact whose upload failed; and the same failure on a queue
holding a different artifact gives the very same error. -/
theorem C7_error_without_artifact_name :
    (Push
      (sampleExternals (some ⟨"gitlab.example", "", "group/project", "package_name=p"⟩)
        (Except.ok sampleGitLabClient))
      (sampleClient [⟨"abc-123.json", "X"⟩] (Reply.response ⟨42⟩ 200)
        [Reply.transportError "connection refused"])
      "https://gitlab.example/group/project?package_name=p" 0).outcome
        = Outcome.failure "failed to push sbom: connection refused" ∧
    ¬ ("abc-123.json".data <:+: "failed to push sbom: connection refused".data) ∧
    (Push
      (sampleExternals (some ⟨"gitlab.example", "", "group/project", "package_name=p"⟩)
        (Except.ok sampleGitLabClient))
      (sampleClient [⟨"abc-123.json", "X"⟩] (Reply.response ⟨42⟩ 200) [Reply.response () 500])
      "https://gitlab.example/group/project?package_name=p" 0).outcome
        = Outcome.failure "failed web request, HTTP status code: 500" ∧
    ¬ ("abc-123.json".data <:+: "failed web request, HTTP status code: 500".data) ∧
    (Push
      (sampleExternals (some ⟨"gitlab.example", "", "group/project", "package_name=p"⟩)
        (Except.ok sampleGitLabClient))
      (sampleClient [⟨"other.xml", "Y"⟩] (Reply.response ⟨42⟩ 200) [Reply.response () 500])
      "https://gitlab.example/group/project?package_name=p" 0).outcome
        = Outcome.failure "failed web request, HTTP status code: 500" := by
  refine ⟨by decide, by decide, by decide, by decide, by decide⟩

/-- C7 (amended): when a publish call fails during `Push` (the one at position `j` of the queue,
counting from 0, the calls before it having succeeded), the error returned is fixed by the reply
to that call alone: after a transport error its message is `failed to push sbom: ` followed by
the transport error's message, and after a non-2xx status it is the status-validation error for
that status code. -/
theorem C7_push_error_message {σ Doc : Type} (ext : Externals σ Doc) (client : Client σ)
    (pushURL : String) (w w1 : σ) (url : URL) (provider : ProjectProvider σ)
    (publisher : GenericPackagePublisher σ) (project : Project) (statusCode : Int)
    (name version : String) (j : Nat) (r : Reply Unit)
    (hparse : ext.Parse pushURL = some url)
    (hprov : client.ProjectProvider = some provider)
    (hpub : client.GenericPackagePublisher = some publisher)
    (hget : provider.GetProject url.Path w = (Reply.response project statusCode, w1))
    (hok : 200 ≤ statusCode ∧ statusCode < 300)
    (hparams : parseParameters url.Query = some (name, version))
    (hbefore : ∀ r0 ∈ (answers publisher
      (client.PushQueue.map (publishCall project.ID name version)) w1).take j,
      r0.succeeded = true)
    (hat : (answers publisher
      (client.PushQueue.map (publishCall project.ID name version)) w1).get? j = some r)
    (hfail : r.succeeded = false) :
    (∀ msg, r = Reply.transportError msg →
      (Push ext client pushURL w).outcome = Outcome.failure ("failed to push sbom: " ++ msg)) ∧
    (∀ value code, r = Reply.response value code →
      ∃ err, validateHTTPStatusCode code = some err ∧
        (Push ext client pushURL w).outcome = Outcome.failure err) := by
  have hloop := publishLoop_fail_at publisher project.ID name version client.PushQueue w1 j
    hbefore r hat hfail
  rw [Push_of_resolved ext client pushURL w w1 url provider project statusCode name version
    hparse hprov hget hok hparams, hpub]
  exact ⟨hloop.1, hloop.2.1⟩

/-- C7 (amended) on a destination without a query and a queue of two artifacts whose second
publish call ends in the transport error `connection refused`. -/
theorem C7_push_error_message_witness :
    (Push
      (sampleExternals (some ⟨"gitlab.example", "", "group/project", ""⟩)
        (Except.ok sampleGitLabClient))
      (sampleClient [⟨"a.json", "A"⟩, ⟨"b.json", "B"⟩] (Reply.response ⟨42⟩ 200)
        [Reply.response () 201, Reply.transportError "connection refused"])
      "https://gitlab.example/group/project" 0).outcome
        = Outcome.failure ("failed to push sbom: " ++ "connection refused") :=
  (C7_push_error_message
    (sampleExternals (some ⟨"gitlab.example", "", "group/project", ""⟩)
      (Except.ok sampleGitLabClient))
    (sampleClient [⟨"a.json", "A"⟩, ⟨"b.json", "B"⟩] (Reply.response ⟨42⟩ 200)
      [Reply.response () 201, Reply.transportError "connection refused"])
    "https://gitlab.example/group/project" 0 0
    ⟨"gitlab.example", "", "group/project", ""⟩
    (fixedProvider (Reply.response ⟨42⟩ 200))
    (scriptedPublisher [Reply.response () 201, Reply.transportError "connection refused"])
    ⟨42⟩ 200 "" "" 1 (Reply.transportError "connection refused") rfl rfl rfl rfl (by decide)
    (by decide) (by decide) (by decide) (by decide)).1
    "connection refused" rfl

/-- C8: a successful `AddFile` call leaves the queue as it was followed by exactly one new
artifact (derived name, rendered content): the length grows by one and every artifact already
queued keeps its position, name and contents; hence after a sequence of successful calls the
queue is the old queue followed by the artifacts of the calls, in call order. -/
theorem C8_addFile_appends {σ Doc : Type} (ext : Externals σ Doc) (client client1 : Client σ)
    (pushURL id : String) (opts : PushOptions Doc)
    (h : AddFile ext client pushURL id opts = (Outcome.success, client1)) :
    (∃ artifact, ArtifactOf ext id opts artifact ∧
      client1.PushQueue = client.PushQueue ++ [artifact]) ∧
    client1.PushQueue.length = client.PushQueue.length + 1 ∧
    (∀ i, i < client.PushQueue.length → client1.PushQueue.get? i = client.PushQueue.get? i) ∧
    (∀ (calls : List (String × PushOptions Doc)) (clientN : Client σ),
      addFiles ext pushURL client calls = (Outcome.success, clientN) →
      ∃ artifacts, List.Forall₂ (fun call artifact => ArtifactOf ext call.1 call.2 artifact)
          calls artifacts ∧
        clientN.PushQueue = client.PushQueue ++ artifacts) := by
  obtain ⟨artifact, hart, hc⟩ := AddFile_success ext client client1 pushURL id opts h
  have hq : client1.PushQueue = client.PushQueue ++ [artifact] := by rw [hc]
  refine ⟨⟨artifact, hart, hq⟩, ?_, ?_, ?_⟩
  · rw [hq]; simp
  · intro i hi
    rw [hq, List.get?_eq_getElem?, List.get?_eq_getElem?, List.getElem?_append_left hi]
  · intro calls clientN hN
    exact addFiles_success ext pushURL calls client clientN hN

/-- C8 on a queue that already holds one artifact: adding `urn:uuid:abc-123` in format `xml`
puts `abc-123.xml` behind it. -/
theorem C8_addFile_appends_witness :
    (∃ artifact, ArtifactOf (sampleExternals none (Except.ok sampleGitLabClient))
        "urn:uuid:abc-123" (sampleOptions "xml" "X") artifact ∧
      [(⟨"first.json", "F"⟩ : SbomFile), ⟨"abc-123.xml", "X"⟩] =
        (sampleClient [⟨"first.json", "F"⟩] (Reply.response ⟨42⟩ 200) []).PushQueue
          ++ [artifact]) :=
  (C8_addFile_appends (sampleExternals none (Except.ok sampleGitLabClient))
    (sampleClient [⟨"first.json", "F"⟩] (Reply.response ⟨42⟩ 200) [])
    { sampleClient [⟨"first.json", "F"⟩] (Reply.response ⟨42⟩ 200) [] with
      PushQueue := [⟨"first.json", "F"⟩, ⟨"abc-123.xml", "X"⟩] }
    "" "urn:uuid:abc-123" (sampleOptions "xml" "X") (by
      have hn : sbomFilename "urn:uuid:abc-123" "xml" = some "abc-123.xml" := by decide
      simp [AddFile, sampleOptions, sampleExternals, sampleClient, hn])).1

/-- C9: `AddFile` is atomic on error. When the backing store is unavailable or the lookup
misses, it returns that error and the session is unchanged; when the document is found,
file-name extraction yields a name and serialization then fails, it returns the error
`failed to serialize SBOM <id>: ...`, whose message contains the document id, and the session is
unchanged; and whenever `AddFile` returns an error the session, its queue included, is as
before. -/
theorem C9_addFile_atomic_on_error {σ Doc : Type} (ext : Externals σ Doc) (client : Client σ)
    (pushURL id : String) (opts : PushOptions Doc) :
    (∀ err, opts.Backend = Except.error err →
      AddFile ext client pushURL id opts = (Outcome.failure err, client)) ∧
    (∀ backend err, opts.Backend = Except.ok backend → backend id = Except.error err →
      AddFile ext client pushURL id opts = (Outcome.failure err, client)) ∧
    (∀ backend sbom name err, opts.Backend = Except.ok backend → backend id = Except.ok sbom →
      sbomFilename id opts.Format = some name →
      ext.WriteStream sbom opts.Format = Except.error err →
      AddFile ext client pushURL id opts =
          (Outcome.failure ("failed to serialize SBOM " ++ id ++ ": " ++ err), client) ∧
        id.data <:+: ("failed to serialize SBOM " ++ id ++ ": " ++ err).data) ∧
    (∀ msg client1, AddFile ext client pushURL id opts = (Outcome.failure msg, client1) →
      client1 = client ∧ client1.PushQueue = client.PushQueue) := by
  refine ⟨?_, ?_, ?_, ?_⟩
  · intro err hb
    simp only [AddFile, hb]
  · intro backend err hb hd
    simp only [AddFile, hb, hd]
  · intro backend sbom name err hb hd hn hw
    refine ⟨by simp only [AddFile, hb, hd, hn, hw], ?_⟩
    exact ⟨"failed to serialize SBOM ".data, (": " ++ err).data, by
      simp [String.data_append]⟩
  · intro msg client1 h
    have := AddFile_failure_client ext client client1 pushURL id msg opts h
    exact ⟨this, by rw [this]⟩

/-- C9 on a serializer that rejects the document `urn:uuid:abc-123`: the error names the
document and the queue still holds its one artifact. -/
theorem C9_addFile_atomic_on_error_witness :
    AddFile brokenWriterExternals (sampleClient [⟨"first.json", "F"⟩] (Reply.response ⟨42⟩ 200) [])
        "" "urn:uuid:abc-123" (sampleOptions "xml" "X") =
      (Outcome.failure ("failed to serialize SBOM " ++ "urn:uuid:abc-123" ++ ": " ++
        "unsupported format"),
        sampleClient [⟨"first.json", "F"⟩] (Reply.response ⟨42⟩ 200) []) :=
  ((C9_addFile_atomic_on_error brokenWriterExternals
    (sampleClient [⟨"first.json", "F"⟩] (Reply.response ⟨42⟩ 200) []) "" "urn:uuid:abc-123"
    (sampleOptions "xml" "X")).2.2.1 (fun _ => Except.ok "X") "X" "abc-123.xml"
    "unsupported format" rfl rfl (by decide) rfl).1

/-- C10: a successful `PreparePush` leaves the push queue empty whatever was queued before, so a
`Push` right after it issues no publish call; when client construction fails, `PreparePush`
returns that error and leaves the session (queue and capabilities) as it was, as it does
whenever it returns an error. -/
theorem C10_preparePush_resets_queue {σ Doc : Type} (ext : Externals σ Doc) (client : Client σ)
    (pushURL : String) :
    (∀ client1, PreparePush ext client pushURL = (Outcome.success, client1) →
      client1.PushQueue = [] ∧
      ∀ pushURL2 w, (Push ext client1 pushURL2 w).publishes = []) ∧
    (∀ url err, ext.Parse pushURL = some url →
      ext.NewClient (ext.Getenv "BOMCTL_GITLAB_TOKEN") (baseURL url) = Except.error err →
      PreparePush ext client pushURL = (Outcome.failure err, client)) ∧
    (∀ msg client1, PreparePush ext client pushURL = (Outcome.failure msg, client1) →
      client1 = client) := by
  refine ⟨?_, ?_, ?_⟩
  · intro client1 h
    have hq : client1.PushQueue = [] := by
      unfold PreparePush at h
      cases hp : ext.Parse pushURL with
      | none => simp [hp] at h
      | some url =>
        cases hn : ext.NewClient (ext.Getenv "BOMCTL_GITLAB_TOKEN") (baseURL url) with
        | error err => simp [hp, hn] at h
        | ok gitLabClient =>
          simp only [hp, hn, Prod.mk.injEq, true_and] at h
          rw [← h]
    exact ⟨hq, fun pushURL2 w => Push_empty_queue_publishes ext client1 pushURL2 w hq⟩
  · intro url err hp hn
    simp only [PreparePush, hp, hn]
  · intro msg client1 h
    unfold PreparePush at h
    cases hp : ext.Parse pushURL with
    | none => simp [hp] at h
    | some url =>
      cases hn : ext.NewClient (ext.Getenv "BOMCTL_GITLAB_TOKEN") (baseURL url) with
      | error err =>
        simp only [hp, hn, Prod.mk.injEq] at h
        exact h.2.symm
      | ok gitLabClient => simp [hp, hn] at h

/-- C10 on a session that holds two queued artifacts: after `PreparePush` the queue is empty and
a `Push` issues no publish call. -/
theorem C10_preparePush_resets_queue_witness :
    (PreparePush
      (sampleExternals (some ⟨"gitlab.example", "", "group/project", "package_name=p"⟩)
        (Except.ok sampleGitLabClient))
      (sampleClient [⟨"a.json", "A"⟩, ⟨"b.json", "B"⟩] (Reply.response ⟨42⟩ 200) [])
      "https://gitlab.example/group/project?package_name=p").2.PushQueue = [] ∧
    (Push
      (sampleExternals (some ⟨"gitlab.example", "", "group/project", "package_name=p"⟩)
        (Except.ok sampleGitLabClient))
      (PreparePush
        (sampleExternals (some ⟨"gitlab.example", "", "group/project", "package_name=p"⟩)
          (Except.ok sampleGitLabClient))
        (sampleClient [⟨"a.json", "A"⟩, ⟨"b.json", "B"⟩] (Reply.response ⟨42⟩ 200) [])
        "https://gitlab.example/group/project?package_name=p").2
      "https://gitlab.example/group/project?package_name=p" 0).publishes = [] :=
  have h := (C10_preparePush_resets_queue
    (sampleExternals (some ⟨"gitlab.example", "", "group/project", "package_name=p"⟩)
      (Except.ok sampleGitLabClient))
    (sampleClient [⟨"a.json", "A"⟩, ⟨"b.json", "B"⟩] (Reply.response ⟨42⟩ 200) [])
    "https://gitlab.example/group/project?package_name=p").1 _ rfl
  ⟨h.1, h.2 _ 0⟩

/-- C11: for a parsed destination with host `h` and port `p`, the API base endpoint is
`https://h/api/v4` when `p` is empty and `https://h:p/api/v4` otherwise; it starts with
`https://`, does not depend on the destination's path and query, and it is the endpoint
`PreparePush` hands to client construction, whose answer decides the result. -/
theorem C11_preparePush_endpoint {σ Doc : Type} (ext : Externals σ Doc) (client : Client σ)
    (pushURL : String) (url : URL) (hparse : ext.Parse pushURL = some url) :
    (url.Port = "" → baseURL url = "https://" ++ url.Hostname ++ "/api/v4") ∧
    (url.Port ≠ "" →
      baseURL url = "https://" ++ url.Hostname ++ ":" ++ url.Port ++ "/api/v4") ∧
    "https://".data <+: (baseURL url).data ∧
    (∀ path query, baseURL { url with Path := path, Query := query } = baseURL url) ∧
    (∀ err, ext.NewClient (ext.Getenv "BOMCTL_GITLAB_TOKEN") (baseURL url) = Except.error err →
      PreparePush ext client pushURL = (Outcome.failure err, client)) ∧
    (∀ built, ext.NewClient (ext.Getenv "BOMCTL_GITLAB_TOKEN") (baseURL url) = Except.ok built →
      PreparePush ext client pushURL =
        (Outcome.success,
          { GitLabToken := ext.Getenv "BOMCTL_GITLAB_TOKEN"
            ProjectProvider := some built.Projects
            GenericPackagePublisher := some built.GenericPackages
            PushQueue := [] })) := by
  refine ⟨?_, ?_, ?_, ?_, ?_, ?_⟩
  · intro hp
    simp [baseURL, hp]
  · intro hp
    simp [baseURL, hp, String.append_assoc]
  · exact ⟨((if url.Port ≠ "" then url.Hostname ++ ":" ++ url.Port else url.Hostname)
      ++ "/api/v4").data, by simp [baseURL, String.data_append]⟩
  · intro path query
    rfl
  · intro err hn
    simp only [PreparePush, hparse, hn]
  · intro built hn
    simp only [PreparePush, hparse, hn]

/-- C11 on the destination with host `gitlab.example`, port `8443`, path `group/project` and
query `package_name=p`. -/
theorem C11_preparePush_endpoint_witness :
    baseURL ⟨"gitlab.example", "8443", "group/project", "package_name=p"⟩ =
      "https://" ++ "gitlab.example" ++ ":" ++ "8443" ++ "/api/v4" :=
  (C11_preparePush_endpoint
    (sampleExternals (some ⟨"gitlab.example", "8443", "group/project", "package_name=p"⟩)
      (Except.ok sampleGitLabClient))
    (sampleClient [] (Reply.response ⟨42⟩ 200) [])
    "https://gitlab.example:8443/group/project?package_name=p"
    ⟨"gitlab.example", "8443", "group/project", "package_name=p"⟩ rfl).2.1 (by decide)

/-- C12: when the URL parser returns nil for the destination, `Push` returns the
`invalid destination URL` error followed by the offending URL text, having issued no project
lookup and no publish call, and leaves the session and the remote world as they were. -/
theorem C12_push_invalid_url {σ Doc : Type} (ext : Externals σ Doc) (client : Client σ)
    (pushURL : String) (w : σ) (hparse : ext.Parse pushURL = none) :
    (Push ext client pushURL w).outcome =
      Outcome.failure (errInvalidGitLabURL ++ ": " ++ pushURL) ∧
    "invalid destination URL".data <+: (errInvalidGitLabURL ++ ": " ++ pushURL).data ∧
    pushURL.data <:+ (errInvalidGitLabURL ++ ": " ++ pushURL).data ∧
    (Push ext client pushURL w).lookups = [] ∧
    (Push ext client pushURL w).publishes = [] ∧
    (Push ext client pushURL w).client = client ∧
    (Push ext client pushURL w).client.PushQueue = client.PushQueue ∧
    (Push ext client pushURL w).world = w := by
  have hrun : Push ext client pushURL w =
      ⟨Outcome.failure (errInvalidGitLabURL ++ ": " ++ pushURL), client, w, [], []⟩ := by
    simp only [Push, hparse]
  rw [hrun]
  refine ⟨rfl, ?_, ?_, rfl, rfl, rfl, rfl, rfl⟩
  · exact ⟨(": " ++ pushURL).data, by simp [errInvalidGitLabURL, String.data_append]⟩
  · exact ⟨(errInvalidGitLabURL ++ ": ").data, by simp [String.data_append]⟩

/-- C12 on the destination text `not a url` with one queued artifact. -/
theorem C12_push_invalid_url_witness :
    (Push (sampleExternals none (Except.ok sampleGitLabClient))
      (sampleClient [⟨"abc-123.xml", "X"⟩] (Reply.response ⟨42⟩ 200) []) "not a url" 0).outcome =
        Outcome.failure (errInvalidGitLabURL ++ ": " ++ "not a url") :=
  (C12_push_invalid_url (sampleExternals none (Except.ok sampleGitLabClient))
    (sampleClient [⟨"abc-123.xml", "X"⟩] (Reply.response ⟨42⟩ 200) []) "not a url" 0 rfl).1

/-- C13: the extension `AddFile` gives a queued artifact is a two-way choice: the name is a base
followed by `.xml` or by `.json`, it ends in `.xml` exactly when the format token contains
`xml` as a whole word (case-sensitive, no ASCII letter, digit or underscore right before or
after it), and it ends in `.json` for every other format token. -/
theorem C13_extension_choice {σ Doc : Type} (ext : Externals σ Doc) (client client1 : Client σ)
    (pushURL id : String) (opts : PushOptions Doc)
    (h : AddFile ext client pushURL id opts = (Outcome.success, client1)) :
    ∃ artifact base, client1.PushQueue = client.PushQueue ++ [artifact] ∧
      (artifact.Name = base ++ ".xml" ∨ artifact.Name = base ++ ".json") ∧
      (".xml".data <:+ artifact.Name.data ↔ ContainsXmlWord opts.Format) ∧
      (".json".data <:+ artifact.Name.data ↔ ¬ ContainsXmlWord opts.Format) := by
  obtain ⟨artifact, hart, hc⟩ := AddFile_success ext client client1 pushURL id opts h
  obtain ⟨base, hname⟩ := sbomFilename_some hart.1
  refine ⟨artifact, base, by rw [hc], ?_⟩
  by_cases hx : findXml none opts.Format.data = true
  · have hw : ContainsXmlWord opts.Format := (findXml_none_iff opts.Format).mp hx
    rw [if_pos hx] at hname
    rw [hname]
    exact ⟨Or.inl rfl, ⟨fun _ => hw, fun _ => suffix_append_data base ".xml"⟩,
      ⟨fun hs => absurd hs (json_not_suffix_of_xml base), fun hn => absurd hw hn⟩⟩
  · have hw : ¬ ContainsXmlWord opts.Format := fun hc2 =>
      hx ((findXml_none_iff opts.Format).mpr hc2)
    rw [if_neg hx] at hname
    rw [hname]
    exact ⟨Or.inr rfl, ⟨fun hs => absurd hs (xml_not_suffix_of_json base), fun hc2 => absurd hc2 hw⟩,
      ⟨fun _ => hw, fun _ => suffix_append_data base ".json"⟩⟩

/-- C13 on the upper-case format token `XML`, which is not a match: the artifact for
`urn:uuid:abc-123` gets a name ending in `.json`. -/
theorem C13_extension_choice_witness :
    ∃ artifact base,
      ({ sampleClient [] (Reply.response ⟨42⟩ 200) [] with
          PushQueue := [⟨"abc-123.json", "X"⟩] } : Client Nat).PushQueue =
        (sampleClient [] (Reply.response ⟨42⟩ 200) []).PushQueue ++ [artifact] ∧
      (artifact.Name = base ++ ".xml" ∨ artifact.Name = base ++ ".json") ∧
      (".xml".data <:+ artifact.Name.data ↔ ContainsXmlWord (sampleOptions "XML" "X").Format) ∧
      (".json".data <:+ artifact.Name.data ↔
        ¬ ContainsXmlWord (sampleOptions "XML" "X").Format) :=
  C13_extension_choice (sampleExternals none (Except.ok sampleGitLabClient))
    (sampleClient [] (Reply.response ⟨42⟩ 200) [])
    { sampleClient [] (Reply.response ⟨42⟩ 200) [] with PushQueue := [⟨"abc-123.json", "X"⟩] }
    "" "urn:uuid:abc-123" (sampleOptions "XML" "X") (by
      have hn : sbomFilename "urn:uuid:abc-123" "XML" = some "abc-123.json" := by decide
      simp [AddFile, sampleOptions, sampleExternals, sampleClient, hn])

/-- C14, as stated, fails: after a `Push` that returns success on a queue of one artifact, the
queue still holds that artifact, and a second `Push` on the same session issues the publish call
again. -/
theorem C14_queue_not_consumed :
    (Push
      (sampleExternals (some ⟨"gitlab.example", "", "group/project",
        "package_name=p&package_version=1.0"⟩) (Except.ok sampleGitLabClient))
      (sampleClient [⟨"abc-123.xml", "X"⟩] (Reply.response ⟨42⟩ 200) [])
      "https://gitlab.example/group/project?package_name=p&package_version=1.0" 0).outcome
        = Outcome.success ∧
    (Push
      (sampleExternals (some ⟨"gitlab.example", "", "group/project",
        "package_name=p&package_version=1.0"⟩) (Except.ok sampleGitLabClient))
      (sampleClient [⟨"abc-123.xml", "X"⟩] (Reply.response ⟨42⟩ 200) [])
      "https://gitlab.example/group/project?package_name=p&package_version=1.0"
        0).client.PushQueue
        = [⟨"abc-123.xml", "X"⟩] ∧
    (Push
      (sampleExternals (some ⟨"gitlab.example", "", "group/project",
        "package_name=p&package_version=1.0"⟩) (Except.ok sampleGitLabClient))
      (Push
        (sampleExternals (some ⟨"gitlab.example", "", "group/project",
          "package_name=p&package_version=1.0"⟩) (Except.ok sampleGitLabClient))
        (sampleClient [⟨"abc-123.xml", "X"⟩] (Reply.response ⟨42⟩ 200) [])
        "https://gitlab.example/group/project?package_name=p&package_version=1.0" 0).client
      "https://gitlab.example/group/project?package_name=p&package_version=1.0"
      (Push
        (sampleExternals (some ⟨"gitlab.example", "", "group/project",
          "package_name=p&package_version=1.0"⟩) (Except.ok sampleGitLabClient))
        (sampleClient [⟨"abc-123.xml", "X"⟩] (Reply.response ⟨42⟩ 200) [])
        "https://gitlab.example/group/project?package_name=p&package_version=1.0"
          0).world).publishes
        = [⟨42, "p", "1.0", "abc-123.xml", "X", none⟩] := by
  refine ⟨by decide, by decide, by decide⟩

/-- C14 (amended): after every `Push`, successful or not, the session is unchanged and its push
queue holds the same artifacts as before. So after a `Push` that returns success, a second
`Push` on the same session to the same destination whose project resolution and publish calls
all succeed returns success and again issues one publish call per queued artifact, in queue
order. -/
theorem C14_push_keeps_queue {σ Doc : Type} (ext : Externals σ Doc) (client : Client σ)
    (pushURL : String) (w : σ) :
    (Push ext client pushURL w).client = client ∧
    (Push ext client pushURL w).client.PushQueue = client.PushQueue ∧
    ((Push ext client pushURL w).outcome = Outcome.success →
      ∀ (w2 w3 : σ) (url : URL) (provider : ProjectProvider σ)
        (publisher : GenericPackagePublisher σ) (project : Project) (statusCode : Int),
      ext.Parse pushURL = some url →
      client.ProjectProvider = some provider →
      client.GenericPackagePublisher = some publisher →
      provider.GetProject url.Path w2 = (Reply.response project statusCode, w3) →
      (200 ≤ statusCode ∧ statusCode < 300) →
      (∀ r ∈ answers publisher (client.PushQueue.map (publishCall project.ID
        (packageNameOf url.Query) (packageVersionOf url.Query))) w3, r.succeeded = true) →
      (Push ext (Push ext client pushURL w).client pushURL w2).outcome = Outcome.success ∧
      (Push ext (Push ext client pushURL w).client pushURL w2).publishes =
        client.PushQueue.map (publishCall project.ID (packageNameOf url.Query)
          (packageVersionOf url.Query))) := by
  have hc := Push_client ext client pushURL w
  refine ⟨hc, by rw [hc], ?_⟩
  intro hfirst w2 w3 url provider publisher project statusCode hparse hprov hpub hget hok hall
  obtain ⟨name, version, hp⟩ := Push_success_params ext client pushURL w url hparse hfirst
  have hparams : parseParameters url.Query =
      some (packageNameOf url.Query, packageVersionOf url.Query) := by
    simp [packageNameOf, packageVersionOf, hp]
  rw [hc]
  have h := Push_all_succeed ext client pushURL w2 w3 url provider publisher project
    statusCode _ _ hparse hprov hpub hget hok hparams hall
  exact ⟨h.1, h.2.1⟩

/-- C14 (amended) on a queue of one artifact: after a successful `Push` the second `Push`
succeeds and publishes the artifact again. -/
theorem C14_push_keeps_queue_witness :
    (Push
      (sampleExternals (some ⟨"gitlab.example", "", "group/project",
        "package_name=p&package_version=1.0"⟩) (Except.ok sampleGitLabClient))
      (Push
        (sampleExternals (some ⟨"gitlab.example", "", "group/project",
          "package_name=p&package_version=1.0"⟩) (Except.ok sampleGitLabClient))
        (sampleClient [⟨"abc-123.xml", "X"⟩] (Reply.response ⟨42⟩ 200) [])
        "https://gitlab.example/group/project?package_name=p&package_version=1.0" 0).client
      "https://gitlab.example/group/project?package_name=p&package_version=1.0" 1).outcome
        = Outcome.success ∧
    (Push
      (sampleExternals (some ⟨"gitlab.example", "", "group/project",
        "package_name=p&package_version=1.0"⟩) (Except.ok sampleGitLabClient))
      (Push
        (sampleExternals (some ⟨"gitlab.example", "", "group/project",
          "package_name=p&package_version=1.0"⟩) (Except.ok sampleGitLabClient))
        (sampleClient [⟨"abc-123.xml", "X"⟩] (Reply.response ⟨42⟩ 200) [])
        "https://gitlab.example/group/project?package_name=p&package_version=1.0" 0).client
      "https://gitlab.example/group/project?package_name=p&package_version=1.0" 1).publishes
        = [⟨42, "p", "1.0", "abc-123.xml", "X", none⟩] := by
  have h := (C14_push_keeps_queue
    (sampleExternals (some ⟨"gitlab.example", "", "group/project",
      "package_name=p&package_version=1.0"⟩) (Except.ok sampleGitLabClient))
    (sampleClient [⟨"abc-123.xml", "X"⟩] (Reply.response ⟨42⟩ 200) [])
    "https://gitlab.example/group/project?package_name=p&package_version=1.0" 0).2.2
    (by decide) 1 1
    ⟨"gitlab.example", "", "group/project", "package_name=p&package_version=1.0"⟩
    (fixedProvider (Reply.response ⟨42⟩ 200)) (scriptedPublisher []) ⟨42⟩ 200
    rfl rfl rfl rfl (by decide) (by decide)
  exact ⟨h.1, h.2.trans (by decide)⟩

/-- C15: the parameter loop reads `nameValuePair[1]` without a guard, and the read is out of
range exactly when some `&`-separated segment of the query is exactly `package_name` or exactly
`package_version`. With such a segment `Push` panics after project resolution, before any
publish call; with none (as for the empty query, empty segments and unknown keys without `=`)
parsing completes and `Push` goes on to the drain loop with the parsed parameters. -/
theorem C15_unguarded_value_slot {σ Doc : Type} (ext : Externals σ Doc) (client : Client σ)
    (pushURL : String) (w w1 : σ) (url : URL) (provider : ProjectProvider σ)
    (project : Project) (statusCode : Int)
    (hparse : ext.Parse pushURL = some url)
    (hprov : client.ProjectProvider = some provider)
    (hget : provider.GetProject url.Path w = (Reply.response project statusCode, w1))
    (hok : 200 ≤ statusCode ∧ statusCode < 300) :
    (parseParameters url.Query = none ↔
      ∃ parameter ∈ Split url.Query '&',
        parameter = "package_name" ∨ parameter = "package_version") ∧
    ((∃ parameter ∈ Split url.Query '&',
        parameter = "package_name" ∨ parameter = "package_version") →
      (Push ext client pushURL w).outcome = Outcome.panic ∧
      (Push ext client pushURL w).lookups = [url.Path] ∧
      (Push ext client pushURL w).publishes = []) ∧
    ((¬ ∃ parameter ∈ Split url.Query '&',
        parameter = "package_name" ∨ parameter = "package_version") →
      ∃ name version, parseParameters url.Query = some (name, version) ∧
        Push ext client pushURL w =
          ⟨(publishLoop client.GenericPackagePublisher project.ID name version
              client.PushQueue w1).1,
            client,
            (publishLoop client.GenericPackagePublisher project.ID name version
              client.PushQueue w1).2.1,
            [url.Path],
            (publishLoop client.GenericPackagePublisher project.ID name version
              client.PushQueue w1).2.2⟩) ∧
    parseParameters "" = some ("", "") ∧
    parseParameters "&package_version=1&" = some ("", "1") ∧
    parseParameters "verbose&package_name=p" = some ("p", "") := by
  have hv := (validate_eq_none_iff statusCode).mpr hok
  refine ⟨parseParameters_eq_none_iff url.Query, ?_, ?_, by decide, by decide, by decide⟩
  · intro hbare
    have hnone := (parseParameters_eq_none_iff url.Query).mpr hbare
    have hrun : Push ext client pushURL w = ⟨Outcome.panic, client, w1, [url.Path], []⟩ := by
      simp only [Push, hparse, hprov, hget, hv, hnone]
    rw [hrun]
    exact ⟨rfl, rfl, rfl⟩
  · intro hnobare
    cases hp : parseParameters url.Query with
    | none => exact absurd ((parseParameters_eq_none_iff url.Query).mp hp) hnobare
    | some nv =>
      obtain ⟨name, version⟩ := nv
      exact ⟨name, version, rfl, Push_of_resolved ext client pushURL w w1 url provider project
        statusCode name version hparse hprov hget hok hp⟩

/-- C15 on the query `package_name=p&package_version`, whose second segment is a bare recognized
key: `Push` panics after the project lookup and issues no publish call. -/
theorem C15_unguarded_value_slot_witness :
    (Push
      (sampleExternals (some ⟨"gitlab.example", "", "group/project",
        "package_name=p&package_version"⟩) (Except.ok sampleGitLabClient))
      (sampleClient [⟨"abc-123.xml", "X"⟩] (Reply.response ⟨42⟩ 200) [])
      "https://gitlab.example/group/project?package_name=p&package_version" 0).outcome
        = Outcome.panic ∧
    (Push
      (sampleExternals (some ⟨"gitlab.example", "", "group/project",
        "package_name=p&package_version"⟩) (Except.ok sampleGitLabClient))
      (sampleClient [⟨"abc-123.xml", "X"⟩] (Reply.response ⟨42⟩ 200) [])
      "https://gitlab.example/group/project?package_name=p&package_version" 0).lookups
        = [(⟨"gitlab.example", "", "group/project", "package_name=p&package_version"⟩ : URL).Path]
      ∧
    (Push
      (sampleExternals (some ⟨"gitlab.example", "", "group/project",
        "package_name=p&package_version"⟩) (Except.ok sampleGitLabClient))
      (sampleClient [⟨"abc-123.xml", "X"⟩] (Reply.response ⟨42⟩ 200) [])
      "https://gitlab.example/group/project?package_name=p&package_version" 0).publishes
        = [] :=
  (C15_unguarded_value_slot
    (sampleExternals (some ⟨"gitlab.example", "", "group/project",
      "package_name=p&package_version"⟩) (Except.ok sampleGitLabClient))
    (sampleClient [⟨"abc-123.xml", "X"⟩] (Reply.response ⟨42⟩ 200) [])
    "https://gitlab.example/group/project?package_name=p&package_version" 0 0
    ⟨"gitlab.example", "", "group/project", "package_name=p&package_version"⟩
    (fixedProvider (Reply.response ⟨42⟩ 200)) ⟨42⟩ 200 rfl rfl rfl (by decide)).2.1
    ⟨"package_version", by decide, Or.inr rfl⟩

/-- C16: in `AddFile`, file-name extraction yields a name exactly when the identifier contains
`urn:uuid:` immediately followed by at least one ASCII letter, digit, underscore or hyphen; the
base file name `uuidMatch[1]` is then the maximal run of such characters after the leftmost such
occurrence, whatever stands before the pattern and after the run. For an identifier without an
occurrence whose document is found, the indexed match is out of range: `AddFile` panics, so it
returns no error value, and the session is left as it was. -/
theorem C16_identifier_match {σ Doc : Type} (ext : Externals σ Doc) (client : Client σ)
    (pushURL id : String) (opts : PushOptions Doc) :
    ((∃ name, sbomFilename id opts.Format = some name) ↔ ContainsUuid id) ∧
    (∀ pre tok rest : List Char, id.data = pre ++ "urn:uuid:".data ++ tok ++ rest →
      tok ≠ [] → (∀ c ∈ tok, isUuidChar c = true) →
      (∀ c, rest.head? = some c → isUuidChar c = false) →
      (∀ pre2 rest2, id.data = pre2 ++ rest2 → pre2.length < pre.length →
        ¬ UuidOccursAt rest2) →
      (uuidRegexFindStringSubmatch id).get? 1 = some (String.mk tok) ∧
      (sbomFilename id opts.Format = some (String.mk tok ++ ".xml") ∨
        sbomFilename id opts.Format = some (String.mk tok ++ ".json"))) ∧
    (∀ backend sbom, opts.Backend = Except.ok backend → backend id = Except.ok sbom →
      ¬ ContainsUuid id →
      AddFile ext client pushURL id opts = (Outcome.panic, client)) := by
  refine ⟨?_, ?_, ?_⟩
  · rw [← not_iff_not, ← sbomFilename_eq_none_iff id opts.Format]
    cases sbomFilename id opts.Format with
    | none => simp
    | some name => simp
  · intro pre tok rest hid hne hall hstop hleft
    have hm := matchUuidAt_of_run tok rest hne hall hstop
    have hsplit : id.data = pre ++ ("urn:uuid:".data ++ tok ++ rest) := by
      rw [hid]; simp only [List.append_assoc]
    have hf : findUuid id.data = some tok := by
      rw [hsplit]
      exact findUuid_leftmost pre _ tok hm (fun pre2 rest2 h2 hlen =>
        hleft pre2 rest2 (by rw [hsplit, h2]) hlen)
    have hidx : (uuidRegexFindStringSubmatch id).get? 1 = some (String.mk tok) := by
      rw [uuidMatch_index, hf]
      rfl
    refine ⟨hidx, ?_⟩
    unfold sbomFilename
    rw [hidx]
    by_cases hx : (xmlFormatRegexFindStringSubmatch opts.Format).length = 0
    · exact Or.inr (by simp only [hx, if_true])
    · exact Or.inl (by simp only [hx, if_false])
  · intro backend sbom hb hd hno
    have hn := (sbomFilename_eq_none_iff id opts.Format).mpr hno
    simp only [AddFile, hb, hd, hn]

/-- C16 on two identifiers: in `urn:uuid:abc-123#frag` the base file name is `abc-123`; for the
alias `my-sbom`, which has no occurrence of the pattern, `AddFile` panics and queues nothing. -/
theorem C16_identifier_match_witness :
    (uuidRegexFindStringSubmatch "urn:uuid:abc-123#frag").get? 1 = some (String.mk "abc-123".data)
      ∧
    AddFile (sampleExternals none (Except.ok sampleGitLabClient))
        (sampleClient [⟨"first.json", "F"⟩] (Reply.response ⟨42⟩ 200) []) "" "my-sbom"
        (sampleOptions "xml" "X") =
      (Outcome.panic, sampleClient [⟨"first.json", "F"⟩] (Reply.response ⟨42⟩ 200) []) :=
  ⟨((C16_identifier_match (sampleExternals none (Except.ok sampleGitLabClient))
      (sampleClient [] (Reply.response ⟨42⟩ 200) []) "" "urn:uuid:abc-123#frag"
      (sampleOptions "xml" "X")).2.1 [] "abc-123".data "#frag".data rfl (by decide) (by decide)
      (by decide) (fun _ _ _ hlen => absurd hlen (Nat.not_lt_zero _))).1,
    (C16_identifier_match (sampleExternals none (Except.ok sampleGitLabClient))
      (sampleClient [⟨"first.json", "F"⟩] (Reply.response ⟨42⟩ 200) []) "" "my-sbom"
      (sampleOptions "xml" "X")).2.2 (fun _ => Except.ok "X") "X" rfl rfl
      ((sbomFilename_eq_none_iff "my-sbom" "xml").mp (by decide))⟩

/-- C17: in one round of the parameter loop the key is the text before the first `=` and is
matched exactly, and the value is the text between the first and the second `=`, taken as it
is: the segment `package_name=v=w` sets the package name to `v` and drops `=w`,
`package_name=v` sets it to `v` unchanged, `package_name=` sets it to the empty string (and
likewise for `package_version`), while a segment whose key is neither `package_name` nor
`package_version` changes neither parameter. -/
theorem C17_keys_and_values (acc : String × String) (v w : String) (hv : '=' ∉ v.data) :
    parseParameter acc ("package_name" ++ "=" ++ v ++ "=" ++ w) = some (v, acc.2) ∧
    parseParameter acc ("package_version" ++ "=" ++ v ++ "=" ++ w) = some (acc.1, v) ∧
    parseParameter acc ("package_name" ++ "=" ++ v) = some (v, acc.2) ∧
    parseParameter acc ("package_version" ++ "=" ++ v) = some (acc.1, v) ∧
    parseParameter acc "package_name=" = some ("", acc.2) ∧
    parseParameter acc "package_version=" = some (acc.1, "") ∧
    (∀ key, '=' ∉ key.data → key ≠ "package_name" → key ≠ "package_version" →
      parseParameter acc key = some acc ∧
      ∀ tail, parseParameter acc (key ++ "=" ++ tail) = some acc) ∧
    ('&' ∉ v.data → '&' ∉ w.data →
      parseParameters ("package_name" ++ "=" ++ v ++ "=" ++ w) = some (v, "")) := by
  have hn : '=' ∉ "package_name".data := by decide
  have hver : '=' ∉ "package_version".data := by decide
  have hne : ¬ "package_version" = "package_name" := by decide
  have hname : parseParameter acc ("package_name" ++ "=" ++ v ++ "=" ++ w) = some (v, acc.2) := by
    obtain ⟨more, hs⟩ := Split_key_value_tail "package_name" v w hn hv
    rw [parseParameter_of_split acc _ _ _ more hs]
    simp
  refine ⟨hname, ?_, ?_, ?_, ?_, ?_, ?_, ?_⟩
  · obtain ⟨more, hs⟩ := Split_key_value_tail "package_version" v w hver hv
    rw [parseParameter_of_split acc _ _ _ more hs]
    simp [hne]
  · rw [parseParameter_of_split acc _ _ _ [] (Split_key_value "package_name" v hn hv)]
    simp
  · rw [parseParameter_of_split acc _ _ _ [] (Split_key_value "package_version" v hver hv)]
    simp [hne]
  · have hs : Split "package_name=" '=' = ["package_name", ""] := by decide
    rw [parseParameter_of_split acc _ _ _ [] hs]
    simp
  · have hs : Split "package_version=" '=' = ["package_version", ""] := by decide
    rw [parseParameter_of_split acc _ _ _ [] hs]
    simp [hne]
  · intro key hk h1 h2
    constructor
    · have hs : (Split key '=').get? 0 = some key := by
        unfold Split
        rw [splitChars_of_not_mem '=' _ hk]
        rfl
      exact parseParameter_of_unknown acc key key hs h1 h2
    · intro tail
      have hd : (key ++ "=" ++ tail).data = key.data ++ '=' :: tail.data := by
        simp [String.data_append]
      have hs : (Split (key ++ "=" ++ tail) '=').get? 0 = some key := by
        unfold Split
        rw [hd, splitChars_append_sep '=' _ _ hk]
        rfl
      exact parseParameter_of_unknown acc _ key hs h1 h2
  · intro hv2 hw2
    have hd : ("package_name" ++ "=" ++ v ++ "=" ++ w).data =
        "package_name".data ++ '=' :: (v.data ++ '=' :: w.data) := by
      simp [String.data_append]
    have hamp : '&' ∉ ("package_name" ++ "=" ++ v ++ "=" ++ w).data := by
      rw [hd]
      simp only [List.mem_append, List.mem_cons, not_or]
      exact ⟨by decide, by decide, hv2, by decide, hw2⟩
    have hs : Split ("package_name" ++ "=" ++ v ++ "=" ++ w) '&' =
        ["package_name" ++ "=" ++ v ++ "=" ++ w] := by
      unfold Split
      rw [splitChars_of_not_mem '&' _ hamp]
      rfl
    obtain ⟨more, hs2⟩ := Split_key_value_tail "package_name" v w hn hv
    unfold parseParameters
    rw [hs]
    simp only [parameterLoop, parseParameter_of_split ("", "") _ _ _ more hs2]
    simp

/-- C17 on the segment `package_name= a%20b =c`: the value keeps its spaces and its percent
escape, and `=c` is dropped. -/
theorem C17_keys_and_values_witness :
    parseParameter ("", "1.0") ("package_name" ++ "=" ++ " a%20b " ++ "=" ++ "c") =
      some (" a%20b ", ("", "1.0").2) :=
  (C17_keys_and_values ("", "1.0") " a%20b " "c" (by decide)).1

end Gitlab
